import Mathlib

/-!
Verification of the VectorAlgoAI strategy-backtesting core.

The development shallowly embeds the engine code:
  - core/rule_engine.py          (condition & rule-group evaluation)
  - core/backtester_adapter.py   (run_backtest_v2 and _check_conditions)
  - core/backtester_pro_engine.py (run_backtest_pro)
  - core/metrics.py              (profit_factor)
  - vectoralgoai-mvp-fixed/core/backtester.py (_compute_metrics profit factor)

Python floats are modelled as `Option ℚ` (`none` is IEEE NaN); frame cells as
`PyVal` (finite float, NaN, or string); fallible Python code as `Except PyErr`.

Rational arithmetic is restored to its definitional (semireducible) behaviour so
that concrete engine runs evaluate by `rfl`/`decide`.
-/

set_option allowUnsafeReducibility true

attribute [semireducible] Rat.sub Rat.add Rat.mul Rat.inv

/-- Python runtime value as stored in a bar-frame cell or produced by the
engines: a finite float (modelled as a rational), the IEEE NaN, or a string. -/
inductive PyVal where
  | num (q : ℚ)
  | nan
  | str (s : String)
deriving DecidableEq, Repr

/-- Python-level errors the embedded code can raise. -/
inductive PyErr where
  | keyError (key : String)
  | valueError (msg : String)
  | typeError
  | indexError
deriving DecidableEq, Repr

/-- A Python float: a finite rational, or NaN (`none`). -/
abbrev PFloat := Option ℚ

/-- View a float as a frame value. -/
def toV : PFloat → PyVal
  | some q => .num q
  | none => .nan

/-- Float `<`: any NaN operand compares false. -/
def fLt : PFloat → PFloat → Bool
  | some a, some b => decide (a < b)
  | _, _ => false

/-- Float `<=`: any NaN operand compares false. -/
def fLe : PFloat → PFloat → Bool
  | some a, some b => decide (a ≤ b)
  | _, _ => false

/-- Float `>`: any NaN operand compares false. -/
def fGt : PFloat → PFloat → Bool
  | some a, some b => decide (b < a)
  | _, _ => false

/-- Float `>=`: any NaN operand compares false. -/
def fGe : PFloat → PFloat → Bool
  | some a, some b => decide (b ≤ a)
  | _, _ => false

/-- Float `==`: NaN is equal to nothing, itself included. -/
def fEqB : PFloat → PFloat → Bool
  | some a, some b => decide (a = b)
  | _, _ => false

/-- Float addition; NaN absorbs. -/
def fAdd : PFloat → PFloat → PFloat
  | some a, some b => some (a + b)
  | _, _ => none

/-- Float subtraction; NaN absorbs. -/
def fSub : PFloat → PFloat → PFloat
  | some a, some b => some (a - b)
  | _, _ => none

/-- Float multiplication; NaN absorbs. -/
def fMul : PFloat → PFloat → PFloat
  | some a, some b => some (a * b)
  | _, _ => none

/-- Float absolute value; NaN absorbs. -/
def fAbs : PFloat → PFloat
  | some a => some |a|
  | none => none

/-- Float division. A zero denominator is modelled as NaN: at every spot the
engines divide by a possibly-zero float the operands are NumPy float64 values,
whose quotient there is non-finite rather than an exception, and no claim
depends on distinguishing an infinity from NaN. -/
def fDiv : PFloat → PFloat → PFloat
  | some a, some b => if b = 0 then none else some (a / b)
  | _, _ => none

/-- Python `<` on frame values: numeric pairs (NaN compares false), string pairs
lexicographic, mixed string/number raises TypeError. -/
def pyLtB : PyVal → PyVal → Except PyErr Bool
  | .num a, .num b => .ok (decide (a < b))
  | .str a, .str b => .ok (decide (a < b))
  | .str _, _ => .error .typeError
  | _, .str _ => .error .typeError
  | _, _ => .ok false

/-- Python `<=` on frame values; NaN compares false. -/
def pyLeB : PyVal → PyVal → Except PyErr Bool
  | .num a, .num b => .ok (decide (a ≤ b))
  | .str a, .str b => .ok (decide (a ≤ b))
  | .str _, _ => .error .typeError
  | _, .str _ => .error .typeError
  | _, _ => .ok false

/-- Python `>` on frame values; NaN compares false. -/
def pyGtB : PyVal → PyVal → Except PyErr Bool
  | .num a, .num b => .ok (decide (b < a))
  | .str a, .str b => .ok (decide (b < a))
  | .str _, _ => .error .typeError
  | _, .str _ => .error .typeError
  | _, _ => .ok false

/-- Python `>=` on frame values; NaN compares false. -/
def pyGeB : PyVal → PyVal → Except PyErr Bool
  | .num a, .num b => .ok (decide (b ≤ a))
  | .str a, .str b => .ok (decide (b ≤ a))
  | .str _, _ => .error .typeError
  | _, .str _ => .error .typeError
  | _, _ => .ok false

/-- Python `==` on frame values: never raises; NaN equals nothing, and values of
different types compare unequal. -/
def pyEqB : PyVal → PyVal → Bool
  | .num a, .num b => decide (a = b)
  | .str a, .str b => a == b
  | _, _ => false

/-- Python `!=` on frame values: the negation of `==`; true whenever either
operand is NaN. -/
def pyNeB (a b : PyVal) : Bool := !pyEqB a b

/-- Shared shape of Python float arithmetic on frame values: finite pairs
compute, NaN absorbs, a string operand raises TypeError. -/
def pyArith (f : ℚ → ℚ → ℚ) : PyVal → PyVal → Except PyErr PFloat
  | .num a, .num b => .ok (some (f a b))
  | .str _, _ => .error .typeError
  | _, .str _ => .error .typeError
  | _, _ => .ok none

/-- Python `-` on frame values. -/
def pySub : PyVal → PyVal → Except PyErr PFloat := pyArith (· - ·)

/-- Python `+` on frame values. -/
def pyAdd : PyVal → PyVal → Except PyErr PFloat := pyArith (· + ·)

/-- Python `*` on frame values. -/
def pyMul : PyVal → PyVal → Except PyErr PFloat := pyArith (· * ·)

/-- The float(...) coercion: numbers pass through, NaN included. A string would
go through numeric parsing; no frame in scope carries a numeric string, so a
string is modelled as the ValueError float() raises on a non-numeric one. -/
def pyFloat : PyVal → Except PyErr PFloat
  | .num q => .ok (some q)
  | .nan => .ok none
  | .str _ => .error (.valueError "could not convert string to float")

/-- Python truthiness of a frame value: zero and the empty string are falsy;
NaN is truthy. -/
def truthy : PyVal → Bool
  | .num q => decide (q ≠ 0)
  | .nan => true
  | .str s => s != ""

/-- One bar of the frame: the cells of a pandas row, keyed by column name. -/
structure Row where
  cells : List (String × PyVal)
deriving DecidableEq, Repr

/-- First cell stored under a key, if any. -/
def lookupCell : List (String × PyVal) → String → Option PyVal
  | [], _ => none
  | c :: t, k => if c.1 == k then some c.2 else lookupCell t k

/-- Overwrite every cell stored under a key. -/
def replaceCell : List (String × PyVal) → String → PyVal → List (String × PyVal)
  | [], _, _ => []
  | c :: t, k, v => (if c.1 == k then (k, v) else c) :: replaceCell t k v

/-- Cell lookup: the value under a column name, if present. -/
def Row.get? (r : Row) (k : String) : Option PyVal :=
  lookupCell r.cells k

/-- row.get(key, default). -/
def Row.getD (r : Row) (k : String) (d : PyVal) : PyVal := (r.get? k).getD d

/-- row[key]: raises KeyError when the column is absent. -/
def Row.getE (r : Row) (k : String) : Except PyErr PyVal :=
  match r.get? k with
  | some v => .ok v
  | none => .error (.keyError k)

/-- Setting one cell: overwrite the existing column or append a new one. -/
def Row.set (r : Row) (k : String) (v : PyVal) : Row :=
  if (lookupCell r.cells k).isSome then ⟨replaceCell r.cells k v⟩
  else ⟨r.cells ++ [(k, v)]⟩

/-- A pandas DataFrame: column names, the index, and the rows. -/
structure DF where
  cols : List String
  idx : List ℚ
  rows : List Row
deriving DecidableEq, Repr

/-- One operand of a rule condition: a numeric literal or a column reference,
distinguished in the source by isinstance checks on the rule-dict entry. -/
inductive Operand where
  | lit (q : ℚ)
  | col (s : String)
deriving DecidableEq, Repr

/-- A rule condition dict. The "op" entry is optional because the adapter reads
it with a default while the rule engine indexes it directly. -/
structure Cond where
  left : Operand
  op : Option String
  right : Operand
deriving DecidableEq, Repr

/-- core/rule_engine.py _get_value: a numeric literal passes through float();
a string key indexes the row and raises KeyError when the column is absent. -/
def _get_value (row : Row) : Operand → Except PyErr PyVal
  | .lit q => .ok (.num q)
  | .col s => row.getE s

/-- df.iloc[i] row access; out of range raises IndexError. -/
def ilocRow (rows : List Row) (i : ℕ) : Except PyErr Row :=
  match rows[i]? with
  | some r => .ok r
  | none => .error .indexError

/-- core/rule_engine.py eval_condition: crossovers read the previous bar (the
current bar again at index 0); the six comparators go through OP_MAP after an
unknown operator raises ValueError. Operand resolution order follows the
source: previous-bar pair first for crossovers, left before right. -/
def eval_condition (rows : List Row) (idx : ℕ) (c : Cond) : Except PyErr Bool := do
  let op ← match c.op with
    | some o => Except.ok o
    | none => Except.error (.keyError "op")
  let cur ← ilocRow rows idx
  let prev ← if idx > 0 then ilocRow rows (idx - 1) else Except.ok cur
  if op == "crosses_above" then do
    let pl ← _get_value prev c.left
    let pr ← _get_value prev c.right
    let b ← pyLeB pl pr
    if b then do
      let cl ← _get_value cur c.left
      let cr ← _get_value cur c.right
      pyGtB cl cr
    else pure false
  else if op == "crosses_below" then do
    let pl ← _get_value prev c.left
    let pr ← _get_value prev c.right
    let b ← pyGeB pl pr
    if b then do
      let cl ← _get_value cur c.left
      let cr ← _get_value cur c.right
      pyLtB cl cr
    else pure false
  else if [">", "<", ">=", "<=", "==", "!="].contains op then do
    let l ← _get_value cur c.left
    let r ← _get_value cur c.right
    if op == ">" then pyGtB l r
    else if op == "<" then pyLtB l r
    else if op == ">=" then pyGeB l r
    else if op == "<=" then pyLeB l r
    else if op == "==" then pure (pyEqB l r)
    else pure (pyNeB l r)
  else Except.error (.valueError ("Unknown operator: " ++ op))

/-- A rule-group dict: it may carry a "type" entry (ATR rules, skipped by the
evaluator), an "all" list, or an "any" list. -/
structure RuleGroup where
  typeKey : Option String
  allKey : Option (List Cond)
  anyKey : Option (List Cond)
deriving DecidableEq, Repr

/-- Short-circuiting all(eval_condition ...) over a condition list. -/
def condAllM (rows : List Row) (idx : ℕ) : List Cond → Except PyErr Bool
  | [] => .ok true
  | c :: cs => do
    let b ← eval_condition rows idx c
    if b then condAllM rows idx cs else pure false

/-- Short-circuiting any(eval_condition ...) over a condition list. -/
def condAnyM (rows : List Row) (idx : ℕ) : List Cond → Except PyErr Bool
  | [] => .ok false
  | c :: cs => do
    let b ← eval_condition rows idx c
    if b then pure true else condAnyM rows idx cs

/-- core/rule_engine.py eval_rule_group: a group with a "type" entry evaluates
false; otherwise ALL/ANY semantics; a group with neither raises ValueError. -/
def eval_rule_group (rows : List Row) (idx : ℕ) (g : RuleGroup) : Except PyErr Bool :=
  if g.typeKey.isSome then .ok false
  else
    match g.allKey with
    | some cs => condAllM rows idx cs
    | none =>
      match g.anyKey with
      | some cs => condAnyM rows idx cs
      | none => .error (.valueError "Rule group must contain 'all' or 'any'.")

/-- Short-circuiting any(eval_rule_group ...) over a group list. -/
def groupAnyM (rows : List Row) (idx : ℕ) : List RuleGroup → Except PyErr Bool
  | [] => .ok false
  | g :: gs => do
    let b ← eval_rule_group rows idx g
    if b then pure true else groupAnyM rows idx gs

/-- Entry/exit rule sets of one strategy side, as the pro engine reads them. -/
structure SideRules where
  long : List RuleGroup
  short : List RuleGroup
deriving Repr

/-- core/rule_engine.py check_entry_long: groups with a "type" entry are
filtered out, the rest are OR'd. -/
def check_entry_long (rows : List Row) (idx : ℕ) (entry : SideRules) : Except PyErr Bool :=
  groupAnyM rows idx (entry.long.filter (fun g => g.typeKey.isNone))

/-- core/rule_engine.py check_entry_short. -/
def check_entry_short (rows : List Row) (idx : ℕ) (entry : SideRules) : Except PyErr Bool :=
  groupAnyM rows idx (entry.short.filter (fun g => g.typeKey.isNone))

/-- core/rule_engine.py check_exit_long. -/
def check_exit_long (rows : List Row) (idx : ℕ) (ex : SideRules) : Except PyErr Bool :=
  groupAnyM rows idx (ex.long.filter (fun g => g.typeKey.isNone))

/-- core/rule_engine.py check_exit_short. -/
def check_exit_short (rows : List Row) (idx : ℕ) (ex : SideRules) : Except PyErr Bool :=
  groupAnyM rows idx (ex.short.filter (fun g => g.typeKey.isNone))

/-- backtester_adapter.py _check_conditions operand resolution: a string operand
is read with row.get(col, 0), silently substituting 0 for a missing column. -/
def adapterOperand (row : Row) : Operand → PyVal
  | .lit q => .num q
  | .col s => row.getD s (.num 0)

/-- One iteration of the _check_conditions loop: true iff this condition vetoes
the conjunction. Each comparator is tested through the negated guard the source
writes; an operator outside the five listed (for example "!=") vetoes nothing. -/
def condRejects (row : Row) (c : Cond) : Except PyErr Bool := do
  let left := adapterOperand row c.left
  let right := adapterOperand row c.right
  let op := c.op.getD "=="
  if op == ">" then pyLeB left right
  else if op == "<" then pyGeB left right
  else if op == ">=" then pyLtB left right
  else if op == "<=" then pyGtB left right
  else if op == "==" then pure (pyNeB left right)
  else pure false

/-- The _check_conditions main loop over a non-empty condition list. -/
def condsPass (row : Row) : List Cond → Except PyErr Bool
  | [] => .ok true
  | c :: cs => do
    let r ← condRejects row c
    if r then pure false else condsPass row cs

/-- backtester_adapter.py _check_conditions: an empty list is false, otherwise
every condition must survive its veto check. -/
def _check_conditions (row : Row) (conds : List Cond) : Except PyErr Bool :=
  if conds.isEmpty then .ok false else condsPass row conds

/-- np.where(df["adx"] > 25, "trend", "chop") for one row. pandas yields NaN
for a cell missing from a ragged row and NaN > 25 is false, so both fall to
"chop". (A string adx would make NumPy raise; no frame in scope carries one.) -/
def regimeOf (r : Row) : PyVal :=
  match r.get? "adx" with
  | some (.num q) => if 25 < q then .str "trend" else .str "chop"
  | _ => .str "chop"

/-- df[k] = scalar: broadcast one value into a (possibly new) column. -/
def DF.setColScalar (df : DF) (k : String) (v : PyVal) : DF :=
  { cols := if df.cols.contains k then df.cols else df.cols ++ [k],
    idx := df.idx,
    rows := df.rows.map (fun r => r.set k v) }

/-- df[k] = row-wise expression: write one computed value per row. -/
def DF.setColWith (df : DF) (k : String) (f : Row → PyVal) : DF :=
  { cols := if df.cols.contains k then df.cols else df.cols ++ [k],
    idx := df.idx,
    rows := df.rows.map (fun r => r.set k (f r)) }

/-- backtester_adapter.py lines 50-53: writes an "adx" column of zeros when the
frame lacks one, then writes the "regime" column, both into the caller's frame. -/
def addRegimeColumns (df : DF) : DF :=
  let df1 := if df.cols.contains "adx" then df else df.setColScalar "adx" (.num 0)
  df1.setColWith "regime" regimeOf

/-- The adapter's Position dataclass. -/
structure V2Pos where
  direction : String
  entry_time : ℚ
  entry_price : PFloat
  sl : Option PFloat
  tp : Option PFloat
  size : PFloat
  entry_regime : PyVal
deriving DecidableEq, Repr

/-- One closed-trade dict appended to the adapter's trades list. -/
structure V2Trade where
  entry_time : ℚ
  exit_time : ℚ
  direction : String
  entry_price : PFloat
  exit_price : PFloat
  pnl : PFloat
  size : PFloat
  reason : String
  regime : PyVal
deriving DecidableEq, Repr

/-- The loop state of run_backtest_v2: the mutating capital, the optional open
position, and the accumulating trades, equity and regimes lists. -/
structure V2State where
  capital : PFloat
  position : Option V2Pos
  trades : List V2Trade
  equity : List PFloat
  regimes : List PyVal
deriving DecidableEq, Repr

/-- The fields run_backtest_v2 reads out of cfg.raw: the four condition lists
and the risk numbers (with the source's dict-get defaults already applied).
The exit lists are read by the source and then never used, as here. -/
structure V2Cfg where
  entryLong : List Cond
  entryShort : List Cond
  exitLong : List Cond
  exitShort : List Cond
  capital : ℚ
  riskPct : ℚ
deriving Repr

/-- The keyword parameters of run_backtest_v2 with their declared defaults. -/
structure V2Params where
  slippage_pct : ℚ := 8 / 10000
  commission_per_trade : ℚ := 3
  monte_carlo_runs : ℕ := 800
deriving Repr

/-- Test an optional stop/target the way the adapter writes it:
`x is not None and cmp close x`. -/
def optTest (o : Option PFloat) (f : PFloat → Bool) : Bool :=
  match o with
  | some v => f v
  | none => false

/-- The adapter's exit ladder (lines 66-79): for a long, SL fires on
close <= sl, else TP on close >= tp; mirrored for a short. Returns the exit
reason when one fires. All comparisons are float comparisons, so a NaN close
never triggers an exit. -/
def v2ExitReason (pos : V2Pos) (close : PFloat) : Option String :=
  if pos.direction == "long" then
    if optTest pos.sl (fun s => fLe close s) then some "SL"
    else if optTest pos.tp (fun t => fGe close t) then some "TP"
    else none
  else
    if optTest pos.sl (fun s => fGe close s) then some "SL"
    else if optTest pos.tp (fun t => fLe close t) then some "TP"
    else none

/-- The trade dict the adapter appends on an exit (lines 82-98): the fill is
the slippage-adjusted close, worse against the trader per side, and the fixed
commission comes off the pnl once. -/
def v2CloseTrade (p : V2Params) (pos : V2Pos) (ts : ℚ) (close : PFloat) (reason : String) :
    V2Trade :=
  let exit_price :=
    fMul close (some (if pos.direction == "long" then 1 - p.slippage_pct
                      else 1 + p.slippage_pct))
  let pnl :=
    fSub (if pos.direction == "long"
          then fMul (fSub exit_price pos.entry_price) pos.size
          else fMul (fSub pos.entry_price exit_price) pos.size)
         (some p.commission_per_trade)
  { entry_time := pos.entry_time, exit_time := ts, direction := pos.direction,
    entry_price := pos.entry_price, exit_price := exit_price, pnl := pnl,
    size := pos.size, reason := reason, regime := pos.entry_regime }

/-- The adapter's exit block (lines 62-100): when a stop or target fires,
append the closed-trade dict, add its pnl to capital and flatten the
position. -/
def v2ExitPhase (p : V2Params) (st : V2State) (ts : ℚ) (close : PFloat) : V2State :=
  match st.position with
  | none => st
  | some pos =>
    match v2ExitReason pos close with
    | none => st
    | some reason =>
      let tr := v2CloseTrade p pos ts close reason
      { st with trades := st.trades ++ [tr],
                capital := fAdd st.capital tr.pnl,
                position := none }

/-- row.get("atr14", (row["high"] - row["low"]) * 1.5): Python evaluates the
default expression eagerly, so high/low are indexed (KeyError when absent) even
when the atr14 column exists. -/
def atr14Of (row : Row) : Except PyErr PyVal := do
  let hv ← row.getE "high"
  let lv ← row.getE "low"
  let d ← pySub hv lv
  pure (row.getD "atr14" (toV (fMul d (some (3 / 2)))))

/-- The position the adapter's `if entered:` block builds (lines 122-135):
risk amount from current capital, stop distance from the computed stop, and
the sizing rule `risk_amount / risk_distance if risk_distance > 0 else 1.0`. -/
def v2NewPos (cfg : V2Cfg) (st : V2State) (ts : ℚ) (close : PFloat)
    (direction : String) (slv tpv : PFloat) (regime : PyVal) : V2Pos :=
  let risk_amount := fMul st.capital (some (cfg.riskPct / 100))
  let risk_distance := fAbs (fSub close slv)
  let size := if fGt risk_distance (some 0) then fDiv risk_amount risk_distance
              else some 1
  { direction := direction, entry_time := ts, entry_price := close,
    sl := some slv, tp := some tpv, size := size, entry_regime := regime }

/-- The adapter's `if entered:` block: install the sized position. -/
def v2Open (cfg : V2Cfg) (st : V2State) (ts : ℚ) (close : PFloat)
    (direction : String) (slv tpv : PFloat) (regime : PyVal) : V2State :=
  { st with position := some (v2NewPos cfg st ts close direction slv tpv regime) }

/-- The entry-signal half of the adapter's entry block (lines 104-120): long
conditions first, otherwise short; on a signal, the side together with the
stop 2 ATR away from the signal close and the target 3.5 ATR away. -/
def v2EntrySignal (cfg : V2Cfg) (row : Row) (close : PFloat) :
    Except PyErr (Option (String × PFloat × PFloat)) := do
  let goLong ← _check_conditions row cfg.entryLong
  if goLong then do
    let atr ← atr14Of row
    let twoAtr ← pyMul (.num 2) atr
    let tpAtr ← pyMul (.num (7 / 2)) atr
    pure (some ("long", fSub close twoAtr, fAdd close tpAtr))
  else do
    let goShort ← _check_conditions row cfg.entryShort
    if goShort then do
      let atr ← atr14Of row
      let twoAtr ← pyMul (.num 2) atr
      let tpAtr ← pyMul (.num (7 / 2)) atr
      pure (some ("short", fAdd close twoAtr, fSub close tpAtr))
    else pure none

/-- The adapter's entry block (lines 104-135): the signal half above feeding
the shared `if entered:` sizing-and-open block. -/
def tryEnterV2 (cfg : V2Cfg) (st : V2State) (ts : ℚ) (row : Row) (close : PFloat)
    (regime : PyVal) : Except PyErr V2State := do
  let sig ← v2EntrySignal cfg row close
  match sig with
  | some (d, slv, tpv) => pure (v2Open cfg st ts close d slv tpv regime)
  | none => pure st

/-- One iteration of the run_backtest_v2 bar loop (lines 55-137): record the
regime, run the exit ladder, then (when flat and the regime is "trend") the
entry block, and append the capital to the equity list. -/
def stepV2 (p : V2Params) (cfg : V2Cfg) (st : V2State) (bar : ℚ × Row) :
    Except PyErr V2State := do
  let ts := bar.1
  let row := bar.2
  let close ← pyFloat (← row.getE "close")
  let regime ← row.getE "regime"
  let st1 := { st with regimes := st.regimes ++ [regime] }
  let st2 := v2ExitPhase p st1 ts close
  let st3 ←
    if st2.position.isNone && pyEqB regime (.str "trend")
    then tryEnterV2 cfg st2 ts row close regime
    else pure st2
  pure { st3 with equity := st3.equity ++ [st3.capital] }

/-- The initial loop state of run_backtest_v2: starting capital, no position,
and the equity list seeded with the starting capital (line 47). -/
def initV2 (cfg : V2Cfg) : V2State :=
  { capital := some cfg.capital, position := none, trades := [],
    equity := [some cfg.capital], regimes := [] }

/-- The full bar loop of run_backtest_v2 over a frame that already carries the
regime column. -/
def loopV2 (p : V2Params) (cfg : V2Cfg) (df : DF) : Except PyErr V2State :=
  (df.idx.zip df.rows).foldlM (stepV2 p cfg) (initV2 cfg)

/-- pd.Series(values, index): raises ValueError when the lengths differ. -/
def pdSeries (vals : List PFloat) (idx : List ℚ) :
    Except PyErr (List (ℚ × PFloat)) :=
  if vals.length = idx.length then .ok (idx.zip vals)
  else .error (.valueError "Length of values does not match length of index")

/-- run_backtest_v2, lines 36-141: mutate the caller's frame with the adx and
regime columns, run the bar loop, then build the equity series from
`pd.Series(equity, df.index[:len(equity)])`. The mutated frame is returned
outside the Except because the in-place column writes survive any later raise.
The report assembly that follows in the source (lines 143-211: the zero-trade
report, metrics, the Monte Carlo block — embedded as `monteCarloV2` — and the
regime stats) is unreachable: the equity list always holds one more value than
the index slice, so the pd.Series call above raises for every input frame. -/
def runBacktestV2Core (df : DF) (p : V2Params) (cfg : V2Cfg) :
    DF × Except PyErr (V2State × List (ℚ × PFloat)) :=
  let df2 := addRegimeColumns df
  (df2, do
    let st ← loopV2 p cfg df2
    let eqSeries ← pdSeries st.equity (df2.idx.take st.equity.length)
    pure (st, eqSeries))

/-- pandas Series.sum(): NaN entries are skipped (skipna default) and the empty
sum is 0. -/
def pdSum (l : List PFloat) : ℚ := (l.filterMap id).sum

/-- A profit-factor value: a finite float or the float("inf") the source
returns when there are wins and no losses. -/
inductive PF where
  | fin (q : ℚ)
  | inf
deriving DecidableEq, Repr

/-- core/metrics.py profit_factor over the pnl column of the trades frame:
0 for an empty frame; with zero gross loss, inf when gross profit is positive
and 0 otherwise; else the quotient. -/
def profit_factor (pnls : List PFloat) : PF :=
  if pnls.isEmpty then .fin 0
  else
    let wins := pdSum (pnls.filter (fun p => fGt p (some 0)))
    let losses := pdSum ((pnls.filter (fun p => fLt p (some 0))).map fAbs)
    if losses = 0 then (if 0 < wins then .inf else .fin 0)
    else .fin (wins / losses)

/-- The profit factor of _compute_metrics in
vectoralgoai-mvp-fixed/core/backtester.py: the empty-trades early return
(lines 104-114) reports 0; the non-empty path (lines 116-123) returns the
quotient when gross loss is positive and inf otherwise — including when there
is no winning trade. -/
def profitFactorFixed (pnls : List PFloat) : PF :=
  if pnls.isEmpty then .fin 0
  else
    let gross_profit := pdSum (pnls.filter (fun p => fGt p (some 0)))
    let gross_loss := pdSum ((pnls.filter (fun p => fLt p (some 0))).map fAbs)
    if 0 < gross_loss then .fin (gross_profit / gross_loss) else .inf

/-- The NumPy global random generator, as the Monte Carlo block consumes it:
one stream of resampling index draws and one of Normal(0, 0.0005) noise draws,
read positionally. run_backtest_v2 takes no seed parameter, so this state is
ambient — it is an extra argument of the model, not of the source function. -/
structure Rng where
  sampleIdx : ℕ → ℕ
  noise : ℕ → ℚ

/-- The monte_carlo result dict of run_backtest_v2. -/
structure MCReport where
  mean_return : ℚ
  median_return : ℚ
  worst_5pct : ℚ
  best_5pct : ℚ
  runs : ℕ
deriving DecidableEq, Repr

/-- np.percentile with the default linear interpolation on the sorted data;
np.median coincides with the 50th percentile. The empty case (unreachable
here: the block requires at least one run) is modelled as 0. -/
def npPercentile (l : List ℚ) (q : ℚ) : ℚ :=
  let s := l.mergeSort (fun a b => decide (a ≤ b))
  let n := s.length
  if n = 0 then 0
  else
    let h : ℚ := q / 100 * ((n : ℚ) - 1)
    let i : ℕ := h.floor.toNat
    let lo := s.getD i 0
    let hi := s.getD (min (i + 1) (n - 1)) 0
    lo + (h - (i : ℚ)) * (hi - lo)

/-- One Monte Carlo run (lines 190-193): draw len(returns) resampled returns
with replacement, perturb each with the paired noise draw, compound, and
report the final cumulative return in percent. Run k consumes stream
positions k*n .. k*n+n-1 of both streams. -/
def mcRunPath (returns : List ℚ) (rng : Rng) (k : ℕ) : ℚ :=
  let n := returns.length
  let draws := (List.range n).map (fun j =>
    (returns.getD (rng.sampleIdx (k * n + j) % n) 0, rng.noise (k * n + j)))
  (draws.foldl (fun acc d => acc * (1 + d.1 + d.2)) 1 - 1) * 100

/-- The Monte Carlo block of run_backtest_v2 (lines 186-200), over the
normalized trade returns: mean, median and the 5th/95th percentiles of the
simulated cumulative-return distribution. -/
def monteCarloV2 (returns : List ℚ) (runs : ℕ) (rng : Rng) : MCReport :=
  let mc := (List.range runs).map (mcRunPath returns rng)
  { mean_return := mc.sum / (mc.length : ℚ),
    median_return := npPercentile mc 50,
    worst_5pct := npPercentile mc 5,
    best_5pct := npPercentile mc 95,
    runs := runs }

/-- One indicator declaration, as run_backtest_pro scans it for an ATR type. -/
structure IndicatorConfig where
  name : String
  type : String
deriving Repr

/-- The risk block of a strategy config. -/
structure RiskConfig where
  capital : ℚ
  risk_per_trade_pct : ℚ
deriving Repr

/-- The fields of core/strategy_config.py StrategyConfig that
run_backtest_pro reads. -/
structure StrategyConfig where
  indicators : List IndicatorConfig
  entry : SideRules
  exit : SideRules
  risk : RiskConfig
deriving Repr

/-- Python `sub in s` substring membership. -/
def strContains (s sub : String) : Bool :=
  (List.range (s.length + 1)).any (fun i => (s.drop i).startsWith sub)

/-- Lines 121-124 / 140-143: the last declared indicator whose type mentions
"atr" names the ATR column, if any. -/
def atrColOf (inds : List IndicatorConfig) : Option String :=
  inds.foldl (fun acc ind => if strContains ind.type "atr" then some ind.name else acc)
    none

/-- row.get(atr_col, None) where atr_col may itself be None. -/
def rowGetOpt (row : Row) : Option String → Option PyVal
  | none => none
  | some c => row.get? c

/-- The guard `atr_val and atr_val > 0`: falsy values short-circuit to the
fallback; a truthy value is compared against 0 (NaN compares false; a string
would raise TypeError there). -/
def atrPositive : Option PyVal → Except PyErr Bool
  | none => .ok false
  | some v => if truthy v then pyGtB v (.num 0) else .ok false

/-- The pro engine's stop/target test `sl and row["low"] <= sl <= row["high"]`:
a falsy level (None, 0, empty) never fires; otherwise the chained comparison
against the bar's range, left conjunct first. -/
def slTpHit (row : Row) (v : Option PyVal) : Except PyErr Bool :=
  match v with
  | none => pure false
  | some v =>
    if truthy v then do
      let low ← row.getE "low"
      let b1 ← pyLeB low v
      if b1 then do
        let high ← row.getE "high"
        pyLeB v high
      else pure false
    else pure false

/-- The pro engine's Trade object at creation: pnl and rr start at 0, the exit
fields and reason at None. -/
structure ProTrade where
  direction : String
  entry_idx : ℕ
  entry_price : PyVal
  size : PFloat
  exit_idx : Option ℕ
  exit_price : Option PyVal
  pnl : PFloat
  rr : PFloat
  reason : Option String
deriving DecidableEq, Repr

/-- The loop state of run_backtest_pro. -/
structure ProState where
  capital : PFloat
  position : Option ProTrade
  equity : List PFloat
  trades : List ProTrade
deriving DecidableEq, Repr

/-- Float / frame value: a string divisor raises TypeError; a zero or NaN
divisor is modelled as NaN (these are NumPy float64 divisions, which produce a
non-finite value rather than raising). -/
def pyvalDiv (a : PFloat) : PyVal → Except PyErr PFloat
  | .str _ => .error .typeError
  | .num q => .ok (if q = 0 then none else a.map (fun x => x / q))
  | .nan => .ok none

/-- Long entry sizing of run_backtest_pro (lines 126-131): with a truthy
positive ATR value the stop sits 2 ATR below the entry and
size = risk_amount / (entry_price - stop); otherwise
size = risk_amount / entry_price. -/
def proLongSize (risk_amount : PFloat) (entry_price : PyVal)
    (atr_val : Option PyVal) : Except PyErr PFloat := do
  let hasAtr ← atrPositive atr_val
  if hasAtr then do
    let twoAtr ← pyMul (.num 2) (atr_val.getD .nan)
    let stop ← pySub entry_price (toV twoAtr)
    let denom ← pySub entry_price (toV stop)
    pure (fDiv risk_amount denom)
  else pyvalDiv risk_amount entry_price

/-- Short entry sizing of run_backtest_pro (lines 145-150): the stop sits
2 ATR above the entry and size = risk_amount / (stop - entry_price);
otherwise size = risk_amount / entry_price. -/
def proShortSize (risk_amount : PFloat) (entry_price : PyVal)
    (atr_val : Option PyVal) : Except PyErr PFloat := do
  let hasAtr ← atrPositive atr_val
  if hasAtr then do
    let twoAtr ← pyMul (.num 2) (atr_val.getD .nan)
    let stop ← pyAdd entry_price (toV twoAtr)
    let denom ← pySub (toV stop) entry_price
    pure (fDiv risk_amount denom)
  else pyvalDiv risk_amount entry_price

/-- The pro engine's exit dispatch for a long position (lines 63-81): SL
first, then TP, then the rule exit (with the source's redundant direction
re-check); each fills at the next bar's open. -/
def proExitSetLong (rows : List Row) (cfg : StrategyConfig) (i : ℕ)
    (row next_row : Row) (pos : ProTrade) : Except PyErr ProTrade := do
  let slHit ← slTpHit row (row.get? "sl")
  if slHit then do
    let xp ← next_row.getE "open"
    pure { pos with exit_idx := some (i + 1), exit_price := some xp,
                    reason := some "SL hit" }
  else do
    let tpHit ← slTpHit row (row.get? "tp")
    if tpHit then do
      let xp ← next_row.getE "open"
      pure { pos with exit_idx := some (i + 1), exit_price := some xp,
                      reason := some "TP hit" }
    else do
      let ruleHit ← check_exit_long rows i cfg.exit
      if ruleHit && (pos.direction == "long") then do
        let xp ← next_row.getE "open"
        pure { pos with exit_idx := some (i + 1), exit_price := some xp,
                        reason := some "Exit rule" }
      else pure pos

/-- The pro engine's exit dispatch for a short position (lines 83-97). -/
def proExitSetShort (rows : List Row) (cfg : StrategyConfig) (i : ℕ)
    (row next_row : Row) (pos : ProTrade) : Except PyErr ProTrade := do
  let slHit ← slTpHit row (row.get? "sl")
  if slHit then do
    let xp ← next_row.getE "open"
    pure { pos with exit_idx := some (i + 1), exit_price := some xp,
                    reason := some "SL hit" }
  else do
    let tpHit ← slTpHit row (row.get? "tp")
    if tpHit then do
      let xp ← next_row.getE "open"
      pure { pos with exit_idx := some (i + 1), exit_price := some xp,
                      reason := some "TP hit" }
    else do
      let ruleHit ← check_exit_short rows i cfg.exit
      if ruleHit then do
        let xp ← next_row.getE "open"
        pure { pos with exit_idx := some (i + 1), exit_price := some xp,
                        reason := some "Exit rule" }
      else pure pos

/-- The closing block of run_backtest_pro (lines 99-111): pnl from the
recorded exit fill, the rr ratio guarded by a nonzero entry price, append the
trade, add the pnl to capital, flatten. -/
def proClose (risk_pct : ℚ) (st : ProState) (pos : ProTrade) :
    Except PyErr ProState := do
  let xp := pos.exit_price.getD .nan
  let diff ← if pos.direction == "long" then pySub xp pos.entry_price
             else pySub pos.entry_price xp
  let pnl := fMul diff pos.size
  let pos1 := { pos with pnl := pnl }
  let pos2 ←
    if pyNeB pos1.entry_price (.num 0) then do
      let prod ← pyMul pos1.entry_price (.num risk_pct)
      pure { pos1 with rr := fDiv pnl (fAbs prod) }
    else pure pos1
  pure { st with trades := st.trades ++ [pos2],
                 capital := fAdd st.capital pnl,
                 position := none }

/-- The exit half of one pro-engine iteration (lines 62-111): update the open
position's exit fields, then close it when an exit was recorded. -/
def proExitPhase (rows : List Row) (cfg : StrategyConfig) (risk_pct : ℚ)
    (st : ProState) (i : ℕ) (row next_row : Row) : Except PyErr ProState := do
  match st.position with
  | none => pure st
  | some pos => do
    let pos1 ←
      if pos.direction == "long" then proExitSetLong rows cfg i row next_row pos
      else if pos.direction == "short" then
        proExitSetShort rows cfg i row next_row pos
      else pure pos
    if pos1.exit_idx.isSome then proClose risk_pct st pos1
    else pure { st with position := some pos1 }

/-- The entry half of one pro-engine iteration (lines 116-153): long rules
first, otherwise short; fills at the next bar's open with the matching sizing
rule. -/
def proEntryPhase (rows : List Row) (cfg : StrategyConfig) (risk_pct : ℚ)
    (st : ProState) (i : ℕ) (row next_row : Row) : Except PyErr ProState := do
  let goLong ← check_entry_long rows i cfg.entry
  if goLong then do
    let entry_price ← next_row.getE "open"
    let risk_amount := fMul st.capital (some risk_pct)
    let atr_val := rowGetOpt row (atrColOf cfg.indicators)
    let size ← proLongSize risk_amount entry_price atr_val
    let t : ProTrade :=
      { direction := "long", entry_idx := i + 1, entry_price := entry_price,
        size := size, exit_idx := none, exit_price := none, pnl := some 0,
        rr := some 0, reason := none }
    pure { st with position := some t }
  else do
    let goShort ← check_entry_short rows i cfg.entry
    if goShort then do
      let entry_price ← next_row.getE "open"
      let risk_amount := fMul st.capital (some risk_pct)
      let atr_val := rowGetOpt row (atrColOf cfg.indicators)
      let size ← proShortSize risk_amount entry_price atr_val
      let t : ProTrade :=
        { direction := "short", entry_idx := i + 1, entry_price := entry_price,
          size := size, exit_idx := none, exit_price := none, pnl := some 0,
          rr := some 0, reason := none }
      pure { st with position := some t }
    else pure st

/-- One iteration of the run_backtest_pro bar loop (lines 55-155). -/
def stepPro (rows : List Row) (cfg : StrategyConfig) (st : ProState) (i : ℕ) :
    Except PyErr ProState := do
  let row ← ilocRow rows i
  let next_row ← ilocRow rows (i + 1)
  let risk_pct := cfg.risk.risk_per_trade_pct / 100
  let st1 ← proExitPhase rows cfg risk_pct st i row next_row
  let st2 ←
    if st1.position.isNone then proEntryPhase rows cfg risk_pct st1 i row next_row
    else pure st1
  pure { st2 with equity := st2.equity ++ [st2.capital] }

/-- The initial loop state of run_backtest_pro. -/
def initPro (cfg : StrategyConfig) : ProState :=
  { capital := some cfg.risk.capital, position := none, equity := [],
    trades := [] }

/-- The run_backtest_pro bar loop: `for i in range(50, len(df) - 1)`. The
engine works on df.copy() (line 47), so the caller's frame is never written. -/
def loopPro (cfg : StrategyConfig) (rows : List Row) : Except PyErr ProState :=
  (List.range' 50 (rows.length - 51)).foldlM (stepPro rows cfg) (initPro cfg)

/-- run_backtest_pro: run the loop on the copied frame and report the equity
series (aligned with df.index[50 : len(df) - 1], whose length matches), the
closed trades (standing in for the trades DataFrame) and the final capital. -/
def run_backtest_pro (df : DF) (cfg : StrategyConfig) :
    Except PyErr (List (ℚ × PFloat) × List ProTrade × PFloat) := do
  let st ← loopPro cfg df.rows
  let eq ← pdSeries st.equity ((df.idx.drop 50).take (df.rows.length - 1 - 50))
  pure (eq, st.trades, st.capital)

/-- A three-bar fixture frame for the final-bar scenario: the long entry
condition close > ema20 holds only on the second bar, the atr14 cell is 1,
adx 30 keeps every bar in the "trend" regime, and the third bar touches
neither the stop (98) nor the target (103.5). -/
def dfScenario : DF :=
  { cols := ["close", "high", "low", "ema20", "adx", "atr14"],
    idx := [1, 2, 3],
    rows := [
      ⟨[("close", .num 100), ("high", .num 101), ("low", .num 99),
        ("ema20", .num 100), ("adx", .num 30), ("atr14", .num 1)]⟩,
      ⟨[("close", .num 100), ("high", .num 101), ("low", .num 99),
        ("ema20", .num 90), ("adx", .num 30), ("atr14", .num 1)]⟩,
      ⟨[("close", .num 100), ("high", .num 101), ("low", .num 99),
        ("ema20", .num 200), ("adx", .num 30), ("atr14", .num 1)]⟩] }

/-- The matching strategy configuration: one long entry rule close > ema20,
no short or exit rules, capital 10000 and risk 1% per trade. -/
def cfgScenario : V2Cfg :=
  { entryLong := [⟨.col "close", some ">", .col "ema20"⟩],
    entryShort := [], exitLong := [], exitShort := [],
    capital := 10000, riskPct := 1 }

/-- A one-bar fixture with a zero atr14 cell: the entry fires and the computed
stop coincides with the entry price, so the stop distance is zero. -/
def dfZeroAtr : DF :=
  { cols := ["close", "high", "low", "ema20", "adx", "atr14"],
    idx := [1],
    rows := [⟨[("close", .num 50), ("high", .num 51), ("low", .num 49),
               ("ema20", .num 40), ("adx", .num 30), ("atr14", .num 0)]⟩] }

/-- A two-bar fixture without an adx column; its entry rule would fire on both
bars if the regime gate allowed it. -/
def dfNoAdx : DF :=
  { cols := ["close", "high", "low", "ema20"],
    idx := [1, 2],
    rows := [
      ⟨[("close", .num 100), ("high", .num 101), ("low", .num 99),
        ("ema20", .num 90)]⟩,
      ⟨[("close", .num 100), ("high", .num 101), ("low", .num 99),
        ("ema20", .num 90)]⟩] }

/-- A row whose x cell is NaN. -/
def rowNan : Row := ⟨[("x", .nan), ("y", .num 5)]⟩

/-- A row carrying only a close cell. -/
def rowPlain : Row := ⟨[("close", .num 1)]⟩

/-- A noise-free random stream. -/
def rngZero : Rng := { sampleIdx := fun _ => 0, noise := fun _ => 0 }

/-- A random stream whose every noise draw is 1. -/
def rngOne : Rng := { sampleIdx := fun _ => 0, noise := fun _ => 1 }

/-- Sum of a float list, left to right from 0, as the engines accumulate pnl. -/
def pfSum (l : List PFloat) : PFloat := l.foldl fAdd (some 0)

/-- Whether a frame value is a float (finite or NaN) rather than a string. -/
def isFloat : PyVal → Bool
  | .str _ => false
  | _ => true

/-- A stream agreeing with the noise-free one on its first position only. -/
def rngTail : Rng :=
  { sampleIdx := fun _ => 0, noise := fun m => if m = 0 then 0 else 7 }

/-- Whether a Python computation returned without raising. -/
def isOkE {α : Type} : Except PyErr α → Bool
  | .ok _ => true
  | .error _ => false

/-- A minimal pro-engine strategy configuration fixture. -/
def cfgPro : StrategyConfig :=
  { indicators := [], entry := ⟨[], []⟩, exit := ⟨[], []⟩,
    risk := { capital := 10000, risk_per_trade_pct := 1 } }

/-! Helper lemmas about the Except monad and monadic folds. -/

theorem exceptBind_ok {α β : Type} (a : α) (f : α → Except PyErr β) :
    (Except.ok a >>= f : Except PyErr β) = f a := rfl

theorem exceptBind_error {α β : Type} (e : PyErr) (f : α → Except PyErr β) :
    (Except.error e >>= f : Except PyErr β) = Except.error e := rfl

theorem foldlM_except_inv {σ α : Type} (f : σ → α → Except PyErr σ) (P : σ → Prop) :
    ∀ (l : List α), (∀ s a s', a ∈ l → f s a = .ok s' → P s → P s') →
      ∀ s s', List.foldlM f s l = .ok s' → P s → P s'
  | [], _, s, s', h, hp => by
    simp only [List.foldlM] at h
    cases h
    exact hp
  | a :: t, hstep, s, s', h, hp => by
    simp only [List.foldlM] at h
    cases hf : f s a with
    | error e => rw [hf, exceptBind_error] at h; cases h
    | ok s1 =>
      rw [hf, exceptBind_ok] at h
      exact foldlM_except_inv f P t
        (fun s a' s' hm => hstep s a' s' (List.mem_cons_of_mem a hm)) s1 s' h
        (hstep s a s1 (List.mem_cons_self a t) hf hp)

theorem foldlM_except_count {σ α : Type} (f : σ → α → Except PyErr σ) (m : σ → ℕ)
    (hstep : ∀ s a s', f s a = .ok s' → m s' = m s + 1) :
    ∀ (l : List α) (s s' : σ), List.foldlM f s l = .ok s' → m s' = m s + l.length
  | [], s, s', h => by
    simp only [List.foldlM] at h
    cases h
    simp
  | a :: t, s, s', h => by
    simp only [List.foldlM] at h
    cases hf : f s a with
    | error e => rw [hf, exceptBind_error] at h; cases h
    | ok s1 =>
      rw [hf, exceptBind_ok] at h
      have := foldlM_except_count f m hstep t s1 s' h
      rw [this, hstep s a s1 hf]
      simp only [List.length_cons]
      omega

/-! Helper lemmas about float addition and sums of pnl lists. -/

theorem fAdd_assoc (a b c : PFloat) : fAdd (fAdd a b) c = fAdd a (fAdd b c) := by
  cases a <;> cases b <;> cases c <;> simp [fAdd, add_assoc]

theorem fAdd_zero_right (a : PFloat) : fAdd a (some 0) = a := by
  cases a <;> simp [fAdd]

theorem fAdd_zero_left (a : PFloat) : fAdd (some 0) a = a := by
  cases a <;> simp [fAdd]

theorem foldl_fAdd_shift : ∀ (l : List PFloat) (c : PFloat),
    l.foldl fAdd c = fAdd c (pfSum l)
  | [], c => by simp [pfSum, List.foldl, fAdd_zero_right]
  | x :: t, c => by
    simp only [pfSum, List.foldl]
    rw [foldl_fAdd_shift t (fAdd c x), foldl_fAdd_shift t (fAdd (some 0) x)]
    rw [fAdd_zero_left, fAdd_assoc]

theorem pfSum_append_single (l : List PFloat) (x : PFloat) :
    pfSum (l ++ [x]) = fAdd (pfSum l) x := by
  simp only [pfSum, List.foldl_append, List.foldl]

/-! Shape lemmas for the adapter's bar-loop step. -/

theorem v2Open_fields (cfg : V2Cfg) (st : V2State) (ts : ℚ) (close : PFloat)
    (d : String) (slv tpv : PFloat) (regime : PyVal) :
    (v2Open cfg st ts close d slv tpv regime).capital = st.capital ∧
    (v2Open cfg st ts close d slv tpv regime).trades = st.trades ∧
    (v2Open cfg st ts close d slv tpv regime).equity = st.equity ∧
    (v2Open cfg st ts close d slv tpv regime).regimes = st.regimes :=
  ⟨rfl, rfl, rfl, rfl⟩

theorem tryEnterV2_ok (cfg : V2Cfg) (st : V2State) (ts : ℚ) (row : Row)
    (close : PFloat) (regime : PyVal) (st' : V2State)
    (h : tryEnterV2 cfg st ts row close regime = .ok st') :
    st'.capital = st.capital ∧ st'.trades = st.trades ∧
    st'.equity = st.equity ∧ st'.regimes = st.regimes := by
  unfold tryEnterV2 at h
  cases hs : v2EntrySignal cfg row close with
  | error e => rw [hs, exceptBind_error] at h; cases h
  | ok sig =>
    rw [hs, exceptBind_ok] at h
    cases sig with
    | none => cases h; exact ⟨rfl, rfl, rfl, rfl⟩
    | some t =>
      obtain ⟨d, slv, tpv⟩ := t
      cases h
      exact ⟨rfl, rfl, rfl, rfl⟩

theorem v2ExitReason_mem (pos : V2Pos) (close : PFloat) (r : String)
    (h : v2ExitReason pos close = some r) : r = "SL" ∨ r = "TP" := by
  unfold v2ExitReason at h
  split at h
  · split at h
    · exact Or.inl (Option.some.inj h).symm
    · split at h
      · exact Or.inr (Option.some.inj h).symm
      · cases h
  · split at h
    · exact Or.inl (Option.some.inj h).symm
    · split at h
      · exact Or.inr (Option.some.inj h).symm
      · cases h

theorem v2ExitPhase_nopos (p : V2Params) (st : V2State) (ts : ℚ) (close : PFloat)
    (hp : st.position = none) : v2ExitPhase p st ts close = st := by
  unfold v2ExitPhase
  rw [hp]

theorem v2ExitPhase_noexit (p : V2Params) (st : V2State) (ts : ℚ) (close : PFloat)
    (pos : V2Pos) (hp : st.position = some pos)
    (hr : v2ExitReason pos close = none) : v2ExitPhase p st ts close = st := by
  unfold v2ExitPhase
  rw [hp]
  dsimp only
  rw [hr]

theorem v2ExitPhase_exit (p : V2Params) (st : V2State) (ts : ℚ) (close : PFloat)
    (pos : V2Pos) (reason : String) (hp : st.position = some pos)
    (hr : v2ExitReason pos close = some reason) :
    ∃ tr : V2Trade, v2ExitPhase p st ts close =
      { st with trades := st.trades ++ [tr], capital := fAdd st.capital tr.pnl,
                position := none } ∧
      tr.reason = reason := by
  refine ⟨v2CloseTrade p pos ts close reason, ?_, rfl⟩
  unfold v2ExitPhase
  rw [hp]
  dsimp only
  rw [hr]

theorem v2ExitPhase_cases (p : V2Params) (st : V2State) (ts : ℚ) (close : PFloat) :
    v2ExitPhase p st ts close = st ∨
    (∃ tr : V2Trade, v2ExitPhase p st ts close =
       { st with trades := st.trades ++ [tr], capital := fAdd st.capital tr.pnl,
                 position := none } ∧
       (tr.reason = "SL" ∨ tr.reason = "TP")) := by
  cases hp : st.position with
  | none => exact Or.inl (v2ExitPhase_nopos p st ts close hp)
  | some pos =>
    cases hr : v2ExitReason pos close with
    | none => exact Or.inl (v2ExitPhase_noexit p st ts close pos hp hr)
    | some reason =>
      obtain ⟨tr, heq, hre⟩ := v2ExitPhase_exit p st ts close pos reason hp hr
      refine Or.inr ⟨tr, heq, ?_⟩
      rw [hre]
      exact v2ExitReason_mem pos close reason hr

theorem stepV2_ok_decomp (p : V2Params) (cfg : V2Cfg) (st : V2State) (b : ℚ × Row)
    (st' : V2State) (h : stepV2 p cfg st b = .ok st') :
    ∃ close regime st3,
      b.2.getE "regime" = .ok regime ∧
      (st3 = v2ExitPhase p { st with regimes := st.regimes ++ [regime] } b.1 close ∨
       (((v2ExitPhase p { st with regimes := st.regimes ++ [regime] } b.1 close).position.isNone
          && pyEqB regime (.str "trend")) = true ∧
        tryEnterV2 cfg (v2ExitPhase p { st with regimes := st.regimes ++ [regime] } b.1 close)
          b.1 b.2 close regime = .ok st3)) ∧
      st' = { st3 with equity := st3.equity ++ [st3.capital] } := by
  unfold stepV2 at h
  dsimp only at h
  cases h1 : b.2.getE "close" with
  | error e => rw [h1, exceptBind_error] at h; cases h
  | ok cv =>
    rw [h1, exceptBind_ok] at h
    cases h2 : pyFloat cv with
    | error e => rw [h2, exceptBind_error] at h; cases h
    | ok close =>
      rw [h2, exceptBind_ok] at h
      cases h3 : b.2.getE "regime" with
      | error e => rw [h3, exceptBind_error] at h; cases h
      | ok regime =>
        rw [h3, exceptBind_ok] at h
        refine ⟨close, regime, ?_⟩
        cases hbc : ((v2ExitPhase p { st with regimes := st.regimes ++ [regime] } b.1 close).position.isNone
            && pyEqB regime (.str "trend")) with
        | false =>
          rw [hbc] at h
          simp only [Bool.false_eq_true, if_false] at h
          cases h
          exact ⟨_, rfl, Or.inl rfl, rfl⟩
        | true =>
          rw [hbc] at h
          simp only [if_true] at h
          cases h4 : tryEnterV2 cfg
              (v2ExitPhase p { st with regimes := st.regimes ++ [regime] } b.1 close)
              b.1 b.2 close regime with
          | error e => rw [h4, exceptBind_error] at h; cases h
          | ok st3 =>
            rw [h4, exceptBind_ok] at h
            cases h
            exact ⟨st3, rfl, Or.inr ⟨rfl, rfl⟩, rfl⟩

/-- The loop invariant behind the capital-conservation claim for the adapter:
at every point of the run, capital is the starting capital plus the pnl of the
recorded trades. -/
theorem loopV2_capital (p : V2Params) (cfg : V2Cfg) (df : DF) (st' : V2State)
    (h : loopV2 p cfg df = .ok st') :
    st'.capital = fAdd (some cfg.capital) (pfSum (st'.trades.map V2Trade.pnl)) := by
  refine foldlM_except_inv (stepV2 p cfg)
    (fun st => st.capital = fAdd (some cfg.capital) (pfSum (st.trades.map V2Trade.pnl)))
    (df.idx.zip df.rows) ?_ (initV2 cfg) st' h ?_
  · intro s b s' _ hok hp
    obtain ⟨close, regime, st3, _, hbr, hst⟩ := stepV2_ok_decomp p cfg s b s' hok
    have hP2 : (v2ExitPhase p { s with regimes := s.regimes ++ [regime] } b.1 close).capital =
        fAdd (some cfg.capital)
          (pfSum ((v2ExitPhase p { s with regimes := s.regimes ++ [regime] } b.1 close).trades.map V2Trade.pnl)) := by
      rcases v2ExitPhase_cases p { s with regimes := s.regimes ++ [regime] } b.1 close with
        heq | ⟨tr, heq, _⟩
      · rw [heq]; exact hp
      · rw [heq]
        simp only [List.map_append, List.map_cons, List.map_nil, pfSum_append_single]
        rw [← fAdd_assoc, ← hp]
    have hP3 : st3.capital = fAdd (some cfg.capital) (pfSum (st3.trades.map V2Trade.pnl)) := by
      rcases hbr with heq | ⟨_, hok3⟩
      · rw [heq]; exact hP2
      · obtain ⟨hc, ht, _, _⟩ := tryEnterV2_ok cfg _ b.1 b.2 close regime st3 hok3
        rw [hc, ht]; exact hP2
    rw [hst]
    exact hP3
  · simp [initV2, pfSum, fAdd_zero_right]

/-- The loop invariant behind the no-forced-close claim for the adapter: every
recorded trade closed through the stop or the target. -/
theorem loopV2_reasons (p : V2Params) (cfg : V2Cfg) (df : DF) (st' : V2State)
    (h : loopV2 p cfg df = .ok st') :
    ∀ tr ∈ st'.trades, tr.reason = "SL" ∨ tr.reason = "TP" := by
  refine foldlM_except_inv (stepV2 p cfg)
    (fun st => ∀ tr ∈ st.trades, tr.reason = "SL" ∨ tr.reason = "TP")
    (df.idx.zip df.rows) ?_ (initV2 cfg) st' h ?_
  · intro s b s' _ hok hp
    obtain ⟨close, regime, st3, _, hbr, hst⟩ := stepV2_ok_decomp p cfg s b s' hok
    have hP2 : ∀ tr ∈ (v2ExitPhase p { s with regimes := s.regimes ++ [regime] } b.1 close).trades,
        tr.reason = "SL" ∨ tr.reason = "TP" := by
      rcases v2ExitPhase_cases p { s with regimes := s.regimes ++ [regime] } b.1 close with
        heq | ⟨tr0, heq, hreason⟩
      · rw [heq]; exact hp
      · rw [heq]
        intro tr hm
        rcases List.mem_append.mp hm with hm | hm
        · exact hp tr hm
        · rw [List.mem_singleton.mp hm]; exact hreason
    have hP3 : ∀ tr ∈ st3.trades, tr.reason = "SL" ∨ tr.reason = "TP" := by
      rcases hbr with heq | ⟨_, hok3⟩
      · rw [heq]; exact hP2
      · obtain ⟨_, ht, _, _⟩ := tryEnterV2_ok cfg _ b.1 b.2 close regime st3 hok3
        rw [ht]; exact hP2
    rw [hst]
    exact hP3
  · intro tr hm
    simp [initV2] at hm

/-- Each adapter bar-loop step appends exactly one equity point. -/
theorem stepV2_equity_len (p : V2Params) (cfg : V2Cfg) (s : V2State) (b : ℚ × Row)
    (s' : V2State) (hok : stepV2 p cfg s b = .ok s') :
    s'.equity.length = s.equity.length + 1 := by
  obtain ⟨close, regime, st3, _, hbr, hst⟩ := stepV2_ok_decomp p cfg s b s' hok
  have hP2 : (v2ExitPhase p { s with regimes := s.regimes ++ [regime] } b.1 close).equity =
      s.equity := by
    rcases v2ExitPhase_cases p { s with regimes := s.regimes ++ [regime] } b.1 close with
      heq | ⟨tr0, heq, _⟩ <;> rw [heq]
  have hP3 : st3.equity = s.equity := by
    rcases hbr with heq | ⟨_, hok3⟩
    · rw [heq]; exact hP2
    · obtain ⟨_, _, he, _⟩ := tryEnterV2_ok cfg _ b.1 b.2 close regime st3 hok3
      rw [he]; exact hP2
  rw [hst]
  simp [hP3]

/-- After a successful adapter bar loop the equity list carries one leading
point plus one point per processed bar. -/
theorem loopV2_equity_len (p : V2Params) (cfg : V2Cfg) (df : DF) (st' : V2State)
    (h : loopV2 p cfg df = .ok st') :
    st'.equity.length = (df.idx.zip df.rows).length + 1 := by
  have h2 := foldlM_except_count (stepV2 p cfg) (fun st => st.equity.length)
    (stepV2_equity_len p cfg) (df.idx.zip df.rows) (initV2 cfg) st' h
  simp only [initV2, List.length_singleton] at h2
  omega

/-! Lemmas about cell updates and the regime columns. -/

theorem lookupCell_replace_self (k : String) (v : PyVal) :
    ∀ l : List (String × PyVal),
      lookupCell (replaceCell l k v) k = (lookupCell l k).map (fun _ => v)
  | [] => rfl
  | c :: t => by
    by_cases hc : (c.1 == k) = true
    · simp [replaceCell, lookupCell, hc]
    · have hcf : (c.1 == k) = false := by simpa using hc
      simp only [replaceCell, lookupCell, hcf, Bool.false_eq_true, if_false]
      exact lookupCell_replace_self k v t

theorem lookupCell_replace_ne (k k' : String) (v : PyVal) (hne : (k == k') = false) :
    ∀ l : List (String × PyVal),
      lookupCell (replaceCell l k v) k' = lookupCell l k'
  | [] => rfl
  | c :: t => by
    by_cases hc : (c.1 == k) = true
    · have hck : c.1 = k := by simpa using hc
      have h2 : (c.1 == k') = false := by rw [hck]; exact hne
      simp only [replaceCell, lookupCell, hc, if_true, hne, h2, Bool.false_eq_true, if_false]
      exact lookupCell_replace_ne k k' v hne t
    · have hcf : (c.1 == k) = false := by simpa using hc
      by_cases hc' : (c.1 == k') = true
      · simp [replaceCell, lookupCell, hcf, hc']
      · have hcf' : (c.1 == k') = false := by simpa using hc'
        simp only [replaceCell, lookupCell, hcf, hcf', Bool.false_eq_true, if_false]
        exact lookupCell_replace_ne k k' v hne t

theorem lookupCell_append_missing (k : String) (v : PyVal) :
    ∀ l : List (String × PyVal), lookupCell l k = none →
      lookupCell (l ++ [(k, v)]) k = some v
  | [], _ => by simp [lookupCell]
  | c :: t, h => by
    by_cases hc : (c.1 == k) = true
    · rw [lookupCell, if_pos hc] at h; cases h
    · have hcf : (c.1 == k) = false := by simpa using hc
      rw [lookupCell, if_neg hc] at h
      simp only [List.cons_append, lookupCell, hcf, Bool.false_eq_true, if_false]
      exact lookupCell_append_missing k v t h

theorem lookupCell_append_ne (k k' : String) (v : PyVal) (hne : (k == k') = false) :
    ∀ l : List (String × PyVal),
      lookupCell (l ++ [(k, v)]) k' = lookupCell l k'
  | [] => by simp [lookupCell, hne]
  | c :: t => by
    by_cases hc : (c.1 == k') = true
    · simp [List.cons_append, lookupCell, hc]
    · have hcf : (c.1 == k') = false := by simpa using hc
      simp only [List.cons_append, lookupCell, hcf, Bool.false_eq_true, if_false]
      exact lookupCell_append_ne k k' v hne t

theorem Row.get?_set_self (r : Row) (k : String) (v : PyVal) :
    (r.set k v).get? k = some v := by
  unfold Row.set Row.get?
  by_cases h : (lookupCell r.cells k).isSome = true
  · rw [if_pos h]
    dsimp only
    rw [lookupCell_replace_self k v r.cells]
    obtain ⟨c0, hc0⟩ := Option.isSome_iff_exists.mp h
    rw [hc0]
    rfl
  · rw [if_neg h]
    dsimp only
    exact lookupCell_append_missing k v r.cells (Option.not_isSome_iff_eq_none.mp h)

theorem Row.get?_set_ne (r : Row) (k k' : String) (v : PyVal)
    (hne : (k == k') = false) : (r.set k v).get? k' = r.get? k' := by
  unfold Row.set Row.get?
  by_cases h : (lookupCell r.cells k).isSome = true
  · rw [if_pos h]
    dsimp only
    exact lookupCell_replace_ne k k' v hne r.cells
  · rw [if_neg h]
    dsimp only
    exact lookupCell_append_ne k k' v hne r.cells

theorem addRegime_idx (df : DF) : (addRegimeColumns df).idx = df.idx := by
  unfold addRegimeColumns DF.setColScalar DF.setColWith
  by_cases h : "adx" ∈ df.cols <;> simp [h]

theorem addRegime_rows_len (df : DF) :
    (addRegimeColumns df).rows.length = df.rows.length := by
  unfold addRegimeColumns DF.setColScalar DF.setColWith
  by_cases h : "adx" ∈ df.cols <;> simp [h]

theorem addRegime_regime_chop (df : DF) (hno : df.cols.contains "adx" = false) :
    ∀ r ∈ (addRegimeColumns df).rows, r.get? "regime" = some (.str "chop") := by
  intro r hr
  unfold addRegimeColumns at hr
  rw [hno] at hr
  simp only [Bool.false_eq_true, if_false, DF.setColWith, DF.setColScalar] at hr
  obtain ⟨r1, hr1, hr1eq⟩ := List.mem_map.mp hr
  obtain ⟨r0, _, hr0eq⟩ := List.mem_map.mp hr1
  subst hr1eq
  rw [Row.get?_set_self]
  subst hr0eq
  unfold regimeOf
  rw [Row.get?_set_self]
  rfl

/-- The loop invariant behind the regime-gate claim: over a frame whose every
row is labelled "chop", the adapter records every regime as "chop", never
opens a position and never books a trade. -/
theorem loopV2_chop (p : V2Params) (cfg : V2Cfg) (df : DF)
    (hchop : ∀ r ∈ df.rows, r.get? "regime" = some (.str "chop")) (st' : V2State)
    (h : loopV2 p cfg df = .ok st') :
    st'.trades = [] ∧ st'.position = none ∧ ∀ x ∈ st'.regimes, x = PyVal.str "chop" := by
  refine foldlM_except_inv (stepV2 p cfg)
    (fun st => st.trades = [] ∧ st.position = none ∧
      ∀ x ∈ st.regimes, x = PyVal.str "chop")
    (df.idx.zip df.rows) ?_ (initV2 cfg) st' h ?_
  · intro s b s' hmem hok hp
    obtain ⟨hptr, hppos, hpreg⟩ := hp
    obtain ⟨close, regime, st3, hreg, hbr, hst⟩ := stepV2_ok_decomp p cfg s b s' hok
    have hb2 : b.2 ∈ df.rows := (List.of_mem_zip hmem).2
    have hregime : regime = .str "chop" := by
      unfold Row.getE at hreg
      rw [hchop b.2 hb2] at hreg
      exact (Except.ok.inj hreg).symm
    have hs1 : v2ExitPhase p { s with regimes := s.regimes ++ [regime] } b.1 close =
        { s with regimes := s.regimes ++ [regime] } :=
      v2ExitPhase_nopos p _ b.1 close hppos
    rcases hbr with heq | ⟨hgate, _⟩
    · rw [hst, heq, hs1]
      refine ⟨hptr, hppos, ?_⟩
      intro x hx
      rcases List.mem_append.mp hx with hx | hx
      · exact hpreg x hx
      · rw [List.mem_singleton.mp hx, hregime]
    · exfalso
      rw [hregime] at hgate
      have := (Bool.and_eq_true _ _).mp hgate
      simp [pyEqB] at this
  · exact ⟨rfl, rfl, fun x hx => by simp [initV2] at hx⟩

/-- The equity series construction of run_backtest_v2 always fails: the equity
list holds one more value than the index slice pandas is given. -/
theorem runBacktestV2Core_series_error (df : DF) (p : V2Params) (cfg : V2Cfg)
    (st : V2State) (hlen : df.idx.length = df.rows.length)
    (h : loopV2 p cfg (addRegimeColumns df) = .ok st) :
    (runBacktestV2Core df p cfg).2 =
      .error (.valueError "Length of values does not match length of index") := by
  unfold runBacktestV2Core
  dsimp only
  rw [h, exceptBind_ok]
  have hzip : ((addRegimeColumns df).idx.zip (addRegimeColumns df).rows).length =
      df.idx.length := by
    rw [List.length_zip, addRegime_idx, addRegime_rows_len, hlen, Nat.min_self]
  have hlen2 : st.equity.length = df.idx.length + 1 := by
    rw [loopV2_equity_len p cfg (addRegimeColumns df) st h, hzip]
  have htake : ((addRegimeColumns df).idx.take st.equity.length).length =
      df.idx.length := by
    rw [List.length_take, addRegime_idx, hlen2]
    omega
  unfold pdSeries
  rw [if_neg (by rw [htake, hlen2]; omega)]
  rfl

/-! Shape lemmas for the pro engine's bar-loop step. -/

theorem proEntryPhase_ok (rows : List Row) (cfg : StrategyConfig) (rp : ℚ)
    (st : ProState) (i : ℕ) (row next_row : Row) (st' : ProState)
    (hnone : st.position = none)
    (h : proEntryPhase rows cfg rp st i row next_row = .ok st') :
    st'.capital = st.capital ∧ st'.trades = st.trades ∧ st'.equity = st.equity ∧
    (∀ pos0, st'.position = some pos0 → pos0.exit_idx = none) := by
  unfold proEntryPhase at h
  dsimp only at h
  cases h1 : check_entry_long rows i cfg.entry with
  | error e => rw [h1, exceptBind_error] at h; cases h
  | ok gl =>
    rw [h1, exceptBind_ok] at h
    cases gl with
    | true =>
      simp only [if_true] at h
      cases h2 : next_row.getE "open" with
      | error e => rw [h2, exceptBind_error] at h; cases h
      | ok ep =>
        rw [h2, exceptBind_ok] at h
        cases h3 : proLongSize (fMul st.capital (some rp)) ep
            (rowGetOpt row (atrColOf cfg.indicators)) with
        | error e => rw [h3, exceptBind_error] at h; cases h
        | ok size =>
          rw [h3, exceptBind_ok] at h
          cases h
          exact ⟨rfl, rfl, rfl, fun pos0 hp => by cases Option.some.inj hp; rfl⟩
    | false =>
      simp only [Bool.false_eq_true, if_false] at h
      cases h2 : check_entry_short rows i cfg.entry with
      | error e => rw [h2, exceptBind_error] at h; cases h
      | ok gs =>
        rw [h2, exceptBind_ok] at h
        cases gs with
        | true =>
          simp only [if_true] at h
          cases h3 : next_row.getE "open" with
          | error e => rw [h3, exceptBind_error] at h; cases h
          | ok ep =>
            rw [h3, exceptBind_ok] at h
            cases h4 : proShortSize (fMul st.capital (some rp)) ep
                (rowGetOpt row (atrColOf cfg.indicators)) with
            | error e => rw [h4, exceptBind_error] at h; cases h
            | ok size =>
              rw [h4, exceptBind_ok] at h
              cases h
              exact ⟨rfl, rfl, rfl, fun pos0 hp => by cases Option.some.inj hp; rfl⟩
        | false =>
          simp only [Bool.false_eq_true, if_false] at h
          cases h
          exact ⟨rfl, rfl, rfl, fun pos0 hp => by rw [hnone] at hp; cases hp⟩

theorem proExitSetLong_ok (rows : List Row) (cfg : StrategyConfig) (i : ℕ)
    (row next_row : Row) (pos pos' : ProTrade)
    (h : proExitSetLong rows cfg i row next_row pos = .ok pos') :
    pos' = pos ∨
    (pos'.exit_idx = some (i + 1) ∧
     (pos'.reason = some "SL hit" ∨ pos'.reason = some "TP hit" ∨
      pos'.reason = some "Exit rule")) := by
  unfold proExitSetLong at h
  cases h1 : slTpHit row (row.get? "sl") with
  | error e => rw [h1, exceptBind_error] at h; cases h
  | ok sl =>
    rw [h1, exceptBind_ok] at h
    cases sl with
    | true =>
      simp only [if_true] at h
      cases h2 : next_row.getE "open" with
      | error e => rw [h2, exceptBind_error] at h; cases h
      | ok xp =>
        rw [h2, exceptBind_ok] at h
        cases h
        exact Or.inr ⟨rfl, Or.inl rfl⟩
    | false =>
      simp only [Bool.false_eq_true, if_false] at h
      cases h2 : slTpHit row (row.get? "tp") with
      | error e => rw [h2, exceptBind_error] at h; cases h
      | ok tp =>
        rw [h2, exceptBind_ok] at h
        cases tp with
        | true =>
          simp only [if_true] at h
          cases h3 : next_row.getE "open" with
          | error e => rw [h3, exceptBind_error] at h; cases h
          | ok xp =>
            rw [h3, exceptBind_ok] at h
            cases h
            exact Or.inr ⟨rfl, Or.inr (Or.inl rfl)⟩
        | false =>
          simp only [Bool.false_eq_true, if_false] at h
          cases h3 : check_exit_long rows i cfg.exit with
          | error e => rw [h3, exceptBind_error] at h; cases h
          | ok rh =>
            rw [h3, exceptBind_ok] at h
            cases hcond : (rh && (pos.direction == "long")) with
            | false =>
              rw [hcond] at h
              simp only [Bool.false_eq_true, if_false] at h
              cases h
              exact Or.inl rfl
            | true =>
              rw [hcond] at h
              simp only [if_true] at h
              cases h4 : next_row.getE "open" with
              | error e => rw [h4, exceptBind_error] at h; cases h
              | ok xp =>
                rw [h4, exceptBind_ok] at h
                cases h
                exact Or.inr ⟨rfl, Or.inr (Or.inr rfl)⟩

theorem proExitSetShort_ok (rows : List Row) (cfg : StrategyConfig) (i : ℕ)
    (row next_row : Row) (pos pos' : ProTrade)
    (h : proExitSetShort rows cfg i row next_row pos = .ok pos') :
    pos' = pos ∨
    (pos'.exit_idx = some (i + 1) ∧
     (pos'.reason = some "SL hit" ∨ pos'.reason = some "TP hit" ∨
      pos'.reason = some "Exit rule")) := by
  unfold proExitSetShort at h
  cases h1 : slTpHit row (row.get? "sl") with
  | error e => rw [h1, exceptBind_error] at h; cases h
  | ok sl =>
    rw [h1, exceptBind_ok] at h
    cases sl with
    | true =>
      simp only [if_true] at h
      cases h2 : next_row.getE "open" with
      | error e => rw [h2, exceptBind_error] at h; cases h
      | ok xp =>
        rw [h2, exceptBind_ok] at h
        cases h
        exact Or.inr ⟨rfl, Or.inl rfl⟩
    | false =>
      simp only [Bool.false_eq_true, if_false] at h
      cases h2 : slTpHit row (row.get? "tp") with
      | error e => rw [h2, exceptBind_error] at h; cases h
      | ok tp =>
        rw [h2, exceptBind_ok] at h
        cases tp with
        | true =>
          simp only [if_true] at h
          cases h3 : next_row.getE "open" with
          | error e => rw [h3, exceptBind_error] at h; cases h
          | ok xp =>
            rw [h3, exceptBind_ok] at h
            cases h
            exact Or.inr ⟨rfl, Or.inr (Or.inl rfl)⟩
        | false =>
          simp only [Bool.false_eq_true, if_false] at h
          cases h3 : check_exit_short rows i cfg.exit with
          | error e => rw [h3, exceptBind_error] at h; cases h
          | ok rh =>
            rw [h3, exceptBind_ok] at h
            cases rh with
            | false =>
              simp only [Bool.false_eq_true, if_false] at h
              cases h
              exact Or.inl rfl
            | true =>
              simp only [if_true] at h
              cases h4 : next_row.getE "open" with
              | error e => rw [h4, exceptBind_error] at h; cases h
              | ok xp =>
                rw [h4, exceptBind_ok] at h
                cases h
                exact Or.inr ⟨rfl, Or.inr (Or.inr rfl)⟩

theorem proClose_ok (rp : ℚ) (st : ProState) (pos : ProTrade) (st' : ProState)
    (h : proClose rp st pos = .ok st') :
    ∃ pos2 : ProTrade, st'.trades = st.trades ++ [pos2] ∧
      st'.capital = fAdd st.capital pos2.pnl ∧ st'.equity = st.equity ∧
      st'.position = none ∧ pos2.reason = pos.reason := by
  unfold proClose at h
  dsimp only at h
  cases hd : (pos.direction == "long") with
  | true =>
    rw [hd] at h
    simp only [if_true] at h
    cases h1 : pySub (pos.exit_price.getD .nan) pos.entry_price with
    | error e => rw [h1, exceptBind_error] at h; cases h
    | ok diff =>
      rw [h1, exceptBind_ok] at h
      cases hb : pyNeB pos.entry_price (.num 0) with
      | true =>
        rw [hb] at h
        simp only [if_true] at h
        cases h2 : pyMul pos.entry_price (.num rp) with
        | error e => rw [h2, exceptBind_error] at h; cases h
        | ok prod =>
          rw [h2, exceptBind_ok] at h
          cases h
          exact ⟨_, rfl, rfl, rfl, rfl, rfl⟩
      | false =>
        rw [hb] at h
        simp only [Bool.false_eq_true, if_false] at h
        cases h
        exact ⟨_, rfl, rfl, rfl, rfl, rfl⟩
  | false =>
    rw [hd] at h
    simp only [Bool.false_eq_true, if_false] at h
    cases h1 : pySub pos.entry_price (pos.exit_price.getD .nan) with
    | error e => rw [h1, exceptBind_error] at h; cases h
    | ok diff =>
      rw [h1, exceptBind_ok] at h
      cases hb : pyNeB pos.entry_price (.num 0) with
      | true =>
        rw [hb] at h
        simp only [if_true] at h
        cases h2 : pyMul pos.entry_price (.num rp) with
        | error e => rw [h2, exceptBind_error] at h; cases h
        | ok prod =>
          rw [h2, exceptBind_ok] at h
          cases h
          exact ⟨_, rfl, rfl, rfl, rfl, rfl⟩
      | false =>
        rw [hb] at h
        simp only [Bool.false_eq_true, if_false] at h
        cases h
        exact ⟨_, rfl, rfl, rfl, rfl, rfl⟩

theorem proExitCont_ok (rp : ℚ) (st : ProState) (i : ℕ) (pos pos1 : ProTrade)
    (st' : ProState) (hx0 : pos.exit_idx = none)
    (hdisp : pos1 = pos ∨ (pos1.exit_idx = some (i + 1) ∧
      (pos1.reason = some "SL hit" ∨ pos1.reason = some "TP hit" ∨
       pos1.reason = some "Exit rule")))
    (h : (if pos1.exit_idx.isSome then proClose rp st pos1
          else pure { st with position := some pos1 } : Except PyErr ProState) = .ok st') :
    ((st'.capital = st.capital ∧ st'.trades = st.trades ∧ st'.equity = st.equity) ∨
     (∃ tr : ProTrade, st'.trades = st.trades ++ [tr] ∧
        st'.capital = fAdd st.capital tr.pnl ∧ st'.equity = st.equity ∧
        (tr.reason = some "SL hit" ∨ tr.reason = some "TP hit" ∨
         tr.reason = some "Exit rule"))) ∧
    (∀ pos0, st'.position = some pos0 → pos0.exit_idx = none) := by
  cases hx : pos1.exit_idx.isSome with
  | true =>
    rw [hx] at h
    simp only [if_true] at h
    obtain ⟨pos2, htr, hcap, heq, hpos, hre⟩ := proClose_ok rp st pos1 st' h
    rcases hdisp with hsame | ⟨_, hgood⟩
    · exfalso
      rw [hsame, hx0] at hx
      cases hx
    · refine ⟨Or.inr ⟨pos2, htr, hcap, heq, ?_⟩,
        fun pos0 hp => by rw [hpos] at hp; cases hp⟩
      rw [hre]
      exact hgood
  | false =>
    rw [hx] at h
    simp only [Bool.false_eq_true, if_false] at h
    cases h
    refine ⟨Or.inl ⟨rfl, rfl, rfl⟩, fun pos0 hp => ?_⟩
    cases Option.some.inj hp
    exact Option.not_isSome_iff_eq_none.mp (by rw [hx]; exact Bool.false_ne_true)

theorem proExitPhase_ok (rows : List Row) (cfg : StrategyConfig) (rp : ℚ)
    (st : ProState) (i : ℕ) (row next_row : Row) (st' : ProState)
    (hinv : ∀ pos0, st.position = some pos0 → pos0.exit_idx = none)
    (h : proExitPhase rows cfg rp st i row next_row = .ok st') :
    ((st'.capital = st.capital ∧ st'.trades = st.trades ∧ st'.equity = st.equity) ∨
     (∃ tr : ProTrade, st'.trades = st.trades ++ [tr] ∧
        st'.capital = fAdd st.capital tr.pnl ∧ st'.equity = st.equity ∧
        (tr.reason = some "SL hit" ∨ tr.reason = some "TP hit" ∨
         tr.reason = some "Exit rule"))) ∧
    (∀ pos0, st'.position = some pos0 → pos0.exit_idx = none) := by
  unfold proExitPhase at h
  cases hsp : st.position with
  | none =>
    rw [hsp] at h
    dsimp only at h
    cases h
    exact ⟨Or.inl ⟨rfl, rfl, rfl⟩,
      fun pos0 hp => hinv pos0 (by rw [hsp] at hp ⊢; exact hp)⟩
  | some pos =>
    rw [hsp] at h
    dsimp only at h
    have hx0 : pos.exit_idx = none := hinv pos hsp
    by_cases hl : (pos.direction == "long") = true
    · rw [if_pos hl] at h
      cases hd : proExitSetLong rows cfg i row next_row pos with
      | error e => rw [hd, exceptBind_error] at h; cases h
      | ok pos1 =>
        rw [hd, exceptBind_ok] at h
        exact proExitCont_ok rp st i pos pos1 st' hx0
          (proExitSetLong_ok rows cfg i row next_row pos pos1 hd) h
    · rw [if_neg hl] at h
      by_cases hs : (pos.direction == "short") = true
      · rw [if_pos hs] at h
        cases hd : proExitSetShort rows cfg i row next_row pos with
        | error e => rw [hd, exceptBind_error] at h; cases h
        | ok pos1 =>
          rw [hd, exceptBind_ok] at h
          exact proExitCont_ok rp st i pos pos1 st' hx0
            (proExitSetShort_ok rows cfg i row next_row pos pos1 hd) h
      · rw [if_neg hs] at h
        rw [show (pure pos : Except PyErr ProTrade) = .ok pos from rfl, exceptBind_ok] at h
        exact proExitCont_ok rp st i pos pos st' hx0 (Or.inl rfl) h

theorem stepPro_ok_decomp (rows : List Row) (cfg : StrategyConfig) (s : ProState)
    (i : ℕ) (s' : ProState) (h : stepPro rows cfg s i = .ok s') :
    ∃ row next_row st1 st2,
      proExitPhase rows cfg (cfg.risk.risk_per_trade_pct / 100) s i row next_row =
        .ok st1 ∧
      ((st1.position = none ∧
        proEntryPhase rows cfg (cfg.risk.risk_per_trade_pct / 100) st1 i row next_row =
          .ok st2) ∨ st2 = st1) ∧
      s' = { st2 with equity := st2.equity ++ [st2.capital] } := by
  unfold stepPro at h
  dsimp only at h
  cases h1 : ilocRow rows i with
  | error e => rw [h1, exceptBind_error] at h; cases h
  | ok row =>
    rw [h1, exceptBind_ok] at h
    cases h2 : ilocRow rows (i + 1) with
    | error e => rw [h2, exceptBind_error] at h; cases h
    | ok next_row =>
      rw [h2, exceptBind_ok] at h
      cases h3 : proExitPhase rows cfg (cfg.risk.risk_per_trade_pct / 100) s i row
          next_row with
      | error e => rw [h3, exceptBind_error] at h; cases h
      | ok st1 =>
        rw [h3, exceptBind_ok] at h
        cases hn : st1.position.isNone with
        | true =>
          rw [hn] at h
          simp only [if_true] at h
          cases h4 : proEntryPhase rows cfg (cfg.risk.risk_per_trade_pct / 100) st1 i
              row next_row with
          | error e => rw [h4, exceptBind_error] at h; cases h
          | ok st2 =>
            rw [h4, exceptBind_ok] at h
            cases h
            exact ⟨row, next_row, st1, st2, h3,
              Or.inl ⟨Option.isNone_iff_eq_none.mp hn, h4⟩, rfl⟩
        | false =>
          rw [hn] at h
          simp only [Bool.false_eq_true, if_false] at h
          cases h
          exact ⟨row, next_row, st1, st1, h3, Or.inr rfl, rfl⟩

/-- The combined loop invariant of run_backtest_pro: capital is the starting
capital plus the pnl of the recorded trades, every recorded trade carries one
of the three exit reasons, and an open position has no exit recorded yet. -/
theorem loopPro_inv (cfg : StrategyConfig) (rows : List Row) (st' : ProState)
    (h : loopPro cfg rows = .ok st') :
    st'.capital = fAdd (some cfg.risk.capital) (pfSum (st'.trades.map ProTrade.pnl)) ∧
    (∀ t ∈ st'.trades, t.reason = some "SL hit" ∨ t.reason = some "TP hit" ∨
      t.reason = some "Exit rule") := by
  have hmain := foldlM_except_inv (stepPro rows cfg)
    (fun st => st.capital = fAdd (some cfg.risk.capital) (pfSum (st.trades.map ProTrade.pnl)) ∧
      (∀ t ∈ st.trades, t.reason = some "SL hit" ∨ t.reason = some "TP hit" ∨
        t.reason = some "Exit rule") ∧
      (∀ pos0, st.position = some pos0 → pos0.exit_idx = none))
    (List.range' 50 (rows.length - 51)) ?_ (initPro cfg) st' h ?_
  · exact ⟨hmain.1, hmain.2.1⟩
  · intro s i s' _ hok hp
    obtain ⟨hcap, hreas, hpos⟩ := hp
    obtain ⟨row, next_row, st1, st2, hexit, hbr, hst⟩ :=
      stepPro_ok_decomp rows cfg s i s' hok
    obtain ⟨hone, hinv1⟩ := proExitPhase_ok rows cfg _ s i row next_row st1 hpos hexit
    have h1 : st1.capital = fAdd (some cfg.risk.capital) (pfSum (st1.trades.map ProTrade.pnl)) ∧
        (∀ t ∈ st1.trades, t.reason = some "SL hit" ∨ t.reason = some "TP hit" ∨
          t.reason = some "Exit rule") := by
      rcases hone with ⟨hc, ht, _⟩ | ⟨tr, ht, hc, _, hgood⟩
      · rw [hc, ht]; exact ⟨hcap, hreas⟩
      · constructor
        · rw [hc, ht, List.map_append, List.map_cons, List.map_nil,
            pfSum_append_single, ← fAdd_assoc, ← hcap]
        · rw [ht]
          intro t hm
          rcases List.mem_append.mp hm with hm | hm
          · exact hreas t hm
          · rw [List.mem_singleton.mp hm]; exact hgood
    have h2 : st2.capital = fAdd (some cfg.risk.capital) (pfSum (st2.trades.map ProTrade.pnl)) ∧
        (∀ t ∈ st2.trades, t.reason = some "SL hit" ∨ t.reason = some "TP hit" ∨
          t.reason = some "Exit rule") ∧
        (∀ pos0, st2.position = some pos0 → pos0.exit_idx = none) := by
      rcases hbr with ⟨hn1, hentry⟩ | heq
      · obtain ⟨hc, ht, _, hinv2⟩ :=
          proEntryPhase_ok rows cfg _ st1 i row next_row st2 hn1 hentry
        rw [hc, ht]
        exact ⟨h1.1, h1.2, hinv2⟩
      · rw [heq]
        exact ⟨h1.1, h1.2, hinv1⟩
    rw [hst]
    exact h2
  · refine ⟨by simp [initPro, pfSum, fAdd_zero_right], ?_, ?_⟩
    · intro t hm
      simp [initPro] at hm
    · intro pos0 hp
      simp [initPro] at hp

/-! Sizing lemmas. -/

theorem v2NewPos_size (cfg : V2Cfg) (st : V2State) (ts : ℚ) (close : PFloat)
    (d : String) (slv tpv : PFloat) (regime : PyVal) :
    (v2NewPos cfg st ts close d slv tpv regime).size =
      (if fGt (fAbs (fSub close slv)) (some 0)
       then fDiv (fMul st.capital (some (cfg.riskPct / 100))) (fAbs (fSub close slv))
       else some 1) := rfl

theorem v2NewPos_size_pos (cfg : V2Cfg) (st : V2State) (ts : ℚ) (cl s : ℚ)
    (tpv : PFloat) (d : String) (regime : PyVal) (c : ℚ)
    (hc : st.capital = some c) (hcpos : 0 < c) (hr : 0 < cfg.riskPct) :
    ∃ q, (v2NewPos cfg st ts (some cl) d (some s) tpv regime).size = some q ∧
      0 < q ∧ (s ≠ cl → q = c * (cfg.riskPct / 100) / |cl - s|) ∧ (s = cl → q = 1) := by
  rw [v2NewPos_size, hc]
  by_cases hs : s = cl
  · refine ⟨1, ?_, one_pos, fun hne => absurd hs hne, fun _ => rfl⟩
    simp [fSub, fAbs, fGt, hs, sub_self]
  · have habs : (0 : ℚ) < |cl - s| := abs_pos.mpr (sub_ne_zero.mpr (fun hh => hs hh.symm))
    refine ⟨c * (cfg.riskPct / 100) / |cl - s|, ?_, ?_, fun _ => rfl,
      fun heq => absurd heq hs⟩
    · simp only [fSub, fAbs, fGt, fMul, fDiv, decide_eq_true_eq]
      rw [if_pos habs, if_neg (ne_of_gt habs)]
    · exact div_pos (mul_pos hcpos (by positivity)) habs

theorem proLongSize_atr (ra e a : ℚ) (ha : 0 < a) :
    proLongSize (some ra) (.num e) (some (.num a)) = .ok (some (ra / (2 * a))) := by
  unfold proLongSize
  have h1 : atrPositive (some (.num a)) = .ok true := by
    simp [atrPositive, truthy, pyGtB, ha, ha.ne']
  rw [h1, exceptBind_ok]
  simp only [if_true]
  rw [show ((some (PyVal.num a)).getD PyVal.nan) = PyVal.num a from rfl]
  rw [show pyMul (.num 2) (.num a) = .ok (some (2 * a)) from rfl, exceptBind_ok]
  rw [show toV (some (2 * a)) = PyVal.num (2 * a) from rfl]
  rw [show pySub (.num e) (.num (2 * a)) = .ok (some (e - 2 * a)) from rfl, exceptBind_ok]
  rw [show toV (some (e - 2 * a)) = PyVal.num (e - 2 * a) from rfl]
  rw [show pySub (.num e) (.num (e - 2 * a)) = .ok (some (e - (e - 2 * a))) from rfl,
    exceptBind_ok]
  have h2 : e - (e - 2 * a) = 2 * a := by ring
  rw [h2]
  have hne : (2 * a) ≠ 0 := by positivity
  simp only [fDiv, hne, if_false]
  rfl

theorem proShortSize_atr (ra e a : ℚ) (ha : 0 < a) :
    proShortSize (some ra) (.num e) (some (.num a)) = .ok (some (ra / (2 * a))) := by
  unfold proShortSize
  have h1 : atrPositive (some (.num a)) = .ok true := by
    simp [atrPositive, truthy, pyGtB, ha, ha.ne']
  rw [h1, exceptBind_ok]
  simp only [if_true]
  rw [show ((some (PyVal.num a)).getD PyVal.nan) = PyVal.num a from rfl]
  rw [show pyMul (.num 2) (.num a) = .ok (some (2 * a)) from rfl, exceptBind_ok]
  rw [show toV (some (2 * a)) = PyVal.num (2 * a) from rfl]
  rw [show pyAdd (.num e) (.num (2 * a)) = .ok (some (e + 2 * a)) from rfl, exceptBind_ok]
  rw [show toV (some (e + 2 * a)) = PyVal.num (e + 2 * a) from rfl]
  rw [show pySub (.num (e + 2 * a)) (.num e) = .ok (some (e + 2 * a - e)) from rfl,
    exceptBind_ok]
  have h2 : e + 2 * a - e = 2 * a := by ring
  rw [h2]
  have hne : (2 * a) ≠ 0 := by positivity
  simp only [fDiv, hne, if_false]
  rfl

theorem proLongSize_noatr (ra e : ℚ) (he : e ≠ 0) :
    proLongSize (some ra) (.num e) none = .ok (some (ra / e)) := by
  unfold proLongSize
  rw [show atrPositive none = .ok false from rfl, exceptBind_ok]
  simp only [Bool.false_eq_true, if_false]
  simp [pyvalDiv, he]

theorem proShortSize_noatr (ra e : ℚ) (he : e ≠ 0) :
    proShortSize (some ra) (.num e) none = .ok (some (ra / e)) := by
  unfold proShortSize
  rw [show atrPositive none = .ok false from rfl, exceptBind_ok]
  simp only [Bool.false_eq_true, if_false]
  simp [pyvalDiv, he]

/-! Profit-factor lemmas. -/

theorem fGt_zero_elim (x : PFloat) (h : fGt x (some 0) = true) :
    ∃ q : ℚ, x = some q ∧ 0 < q := by
  cases x with
  | none => simp [fGt] at h
  | some a => exact ⟨a, rfl, by simpa [fGt] using h⟩

theorem fLt_zero_elim (x : PFloat) (h : fLt x (some 0) = true) :
    ∃ q : ℚ, x = some q ∧ q < 0 := by
  cases x with
  | none => simp [fLt] at h
  | some a => exact ⟨a, rfl, by simpa [fLt] using h⟩

theorem pdSum_pos_elems : ∀ l : List PFloat,
    (∀ x ∈ l, ∃ q : ℚ, x = some q ∧ 0 < q) →
    0 ≤ pdSum l ∧ (0 < pdSum l ↔ l ≠ [])
  | [], _ => by simp [pdSum]
  | x :: t, hall => by
    obtain ⟨q, hx, hq⟩ := hall x (List.mem_cons_self x t)
    have ih := pdSum_pos_elems t (fun y hy => hall y (List.mem_cons_of_mem x hy))
    subst hx
    have hsum : pdSum (some q :: t) = q + pdSum t := by
      simp [pdSum, List.filterMap_cons]
    rw [hsum]
    refine ⟨by linarith [ih.1], ?_, fun _ => by linarith [ih.1]⟩
    intro _
    exact List.cons_ne_nil _ _

theorem winListSpec (pnls : List PFloat) :
    ∀ x ∈ pnls.filter (fun p => fGt p (some 0)), ∃ q : ℚ, x = some q ∧ 0 < q := by
  intro x hx
  exact fGt_zero_elim x (List.mem_filter.mp hx).2

theorem lossListSpec (pnls : List PFloat) :
    ∀ x ∈ (pnls.filter (fun p => fLt p (some 0))).map fAbs,
      ∃ q : ℚ, x = some q ∧ 0 < q := by
  intro x hx
  obtain ⟨y, hy, hxy⟩ := List.mem_map.mp hx
  obtain ⟨a, hya, ha⟩ := fLt_zero_elim y (List.mem_filter.mp hy).2
  refine ⟨|a|, ?_, abs_pos.mpr (ne_of_lt ha)⟩
  rw [← hxy, hya]
  rfl

theorem profit_factor_spec (pnls : List PFloat) :
    (profit_factor pnls = PF.inf ↔
      ((∃ p ∈ pnls, fGt p (some 0) = true) ∧ ∀ p ∈ pnls, fLt p (some 0) = false)) ∧
    (profit_factor pnls = PF.fin 0 ↔
      (pnls = [] ∨ ∀ p ∈ pnls, fGt p (some 0) = false)) ∧
    (∀ w l : ℚ,
      pdSum (pnls.filter (fun p => fGt p (some 0))) = w →
      pdSum ((pnls.filter (fun p => fLt p (some 0))).map fAbs) = l →
      l ≠ 0 → pnls ≠ [] → profit_factor pnls = PF.fin (w / l)) := by
  have hW := pdSum_pos_elems _ (winListSpec pnls)
  have hL := pdSum_pos_elems _ (lossListSpec pnls)
  have hWin : (pnls.filter (fun p => fGt p (some 0)) ≠ []) ↔
      ∃ p ∈ pnls, fGt p (some 0) = true := by
    rw [Ne, List.filter_eq_nil_iff]
    push_neg
    constructor
    · rintro ⟨p, hp, hb⟩
      exact ⟨p, hp, by simpa using hb⟩
    · rintro ⟨p, hp, hb⟩
      exact ⟨p, hp, by simpa using hb⟩
  have hLoss : ((pnls.filter (fun p => fLt p (some 0))).map fAbs = []) ↔
      ∀ p ∈ pnls, fLt p (some 0) = false := by
    rw [List.map_eq_nil_iff, List.filter_eq_nil_iff]
    constructor
    · intro hall p hp
      simpa using hall p hp
    · intro hall p hp
      simp [hall p hp]
  by_cases hempty : pnls = []
  · subst hempty
    refine ⟨?_, ?_, ?_⟩
    · simp [profit_factor]
    · simp [profit_factor]
    · intro w l _ _ _ hne
      exact absurd rfl hne
  · have hEmptyB : pnls.isEmpty = false := by
      cases pnls with
      | nil => exact absurd rfl hempty
      | cons a t => rfl
    by_cases hzero : pdSum ((pnls.filter (fun p => fLt p (some 0))).map fAbs) = 0
    · have hnoloss : ∀ p ∈ pnls, fLt p (some 0) = false := by
        rw [← hLoss]
        by_contra hne
        have := hL.2.mpr hne
        rw [hzero] at this
        exact lt_irrefl 0 this
      by_cases hwpos : 0 < pdSum (pnls.filter (fun p => fGt p (some 0)))
      · have hpf : profit_factor pnls = PF.inf := by
          unfold profit_factor
          rw [hEmptyB]
          simp only [Bool.false_eq_true, if_false]
          rw [if_pos hzero, if_pos hwpos]
        refine ⟨?_, ?_, ?_⟩
        · simp only [hpf, true_iff]
          exact ⟨hWin.mp (hW.2.mp hwpos), hnoloss⟩
        · simp only [hpf]
          constructor
          · intro hc; cases hc
          · rintro (hc | hc)
            · exact absurd hc hempty
            · obtain ⟨p, hp, hb⟩ := hWin.mp (hW.2.mp hwpos)
              rw [hc p hp] at hb
              cases hb
        · intro w l _ hl hlne _
          rw [hl] at hzero
          exact absurd hzero hlne
      · have hwzero : pdSum (pnls.filter (fun p => fGt p (some 0))) = 0 :=
          le_antisymm (not_lt.mp hwpos) hW.1
        have hnowin : ∀ p ∈ pnls, fGt p (some 0) = false := by
          intro p hp
          by_contra hb
          have hb2 : fGt p (some 0) = true := by
            cases hfg : fGt p (some 0) with
            | false => exact absurd hfg hb
            | true => rfl
          have := hW.2.mpr (hWin.mpr ⟨p, hp, hb2⟩)
          rw [hwzero] at this
          exact lt_irrefl 0 this
        have hpf : profit_factor pnls = PF.fin 0 := by
          unfold profit_factor
          rw [hEmptyB]
          simp only [Bool.false_eq_true, if_false]
          rw [if_pos hzero, if_neg hwpos]
        refine ⟨?_, ?_, ?_⟩
        · simp only [hpf]
          constructor
          · intro hc; cases hc
          · rintro ⟨⟨p, hp, hb⟩, _⟩
            rw [hnowin p hp] at hb
            cases hb
        · simp only [hpf, true_iff]
          exact Or.inr hnowin
        · intro w l _ hl hlne _
          rw [hl] at hzero
          exact absurd hzero hlne
    · have hpf : profit_factor pnls =
          PF.fin (pdSum (pnls.filter (fun p => fGt p (some 0))) /
            pdSum ((pnls.filter (fun p => fLt p (some 0))).map fAbs)) := by
        unfold profit_factor
        rw [hEmptyB]
        simp only [Bool.false_eq_true, if_false]
        rw [if_neg hzero]
      have hlpos : 0 < pdSum ((pnls.filter (fun p => fLt p (some 0))).map fAbs) := by
        rcases lt_or_eq_of_le hL.1 with hlt | heq
        · exact hlt
        · exact absurd heq.symm hzero
      refine ⟨?_, ?_, ?_⟩
      · simp only [hpf]
        constructor
        · intro hc; cases hc
        · rintro ⟨_, hnl⟩
          have := hLoss.mpr hnl
          rw [this] at hzero
          simp [pdSum] at hzero
      · simp only [hpf]
        constructor
        · intro hc
          have hq : pdSum (pnls.filter (fun p => fGt p (some 0))) /
              pdSum ((pnls.filter (fun p => fLt p (some 0))).map fAbs) = 0 :=
            PF.fin.inj hc
          rcases div_eq_zero_iff.mp hq with hw | hl
          · refine Or.inr ?_
            intro p hp
            by_contra hb
            have hb2 : fGt p (some 0) = true := by
              cases hfg : fGt p (some 0) with
              | false => exact absurd hfg hb
              | true => rfl
            have := hW.2.mpr (hWin.mpr ⟨p, hp, hb2⟩)
            rw [hw] at this
            exact lt_irrefl 0 this
          · exact absurd hl hzero
        · rintro (hc | hc)
          · exact absurd hc hempty
          · have hwzero : pnls.filter (fun p => fGt p (some 0)) = [] := by
              rw [List.filter_eq_nil_iff]
              intro p hp
              simp [hc p hp]
            rw [hwzero]
            simp [pdSum]
      · intro w l hw hl hlne _
        rw [hpf, hw, hl]

/-! NaN-comparison and missing-column lemmas for the condition evaluators. -/

theorem pyCmpB_nan_false (lv rv : PyVal) (hfl : isFloat lv = true)
    (hfr : isFloat rv = true) (hnan : lv = .nan ∨ rv = .nan) :
    pyGtB lv rv = .ok false ∧ pyLtB lv rv = .ok false ∧
    pyGeB lv rv = .ok false ∧ pyLeB lv rv = .ok false ∧
    pyEqB lv rv = false ∧ pyNeB lv rv = true := by
  rcases hnan with h | h
  · subst h
    cases rv with
    | num b => exact ⟨rfl, rfl, rfl, rfl, rfl, rfl⟩
    | nan => exact ⟨rfl, rfl, rfl, rfl, rfl, rfl⟩
    | str s => simp [isFloat] at hfr
  · subst h
    cases lv with
    | num a => exact ⟨rfl, rfl, rfl, rfl, rfl, rfl⟩
    | nan => exact ⟨rfl, rfl, rfl, rfl, rfl, rfl⟩
    | str s => simp [isFloat] at hfl

theorem eval_condition_comparator (rows : List Row) (idx : ℕ) (c : Cond)
    (op : String) (cur : Row) (hop : c.op = some op) (hcur : rows[idx]? = some cur)
    (hmem : op = ">" ∨ op = "<" ∨ op = ">=" ∨ op = "<=" ∨ op = "==" ∨ op = "!=") :
    eval_condition rows idx c = (do
      let l ← _get_value cur c.left
      let r ← _get_value cur c.right
      if op == ">" then pyGtB l r
      else if op == "<" then pyLtB l r
      else if op == ">=" then pyGeB l r
      else if op == "<=" then pyLeB l r
      else if op == "==" then pure (pyEqB l r)
      else pure (pyNeB l r)) := by
  have hca : (op == "crosses_above") = false := by
    rcases hmem with h | h | h | h | h | h <;> subst h <;> rfl
  have hcb : (op == "crosses_below") = false := by
    rcases hmem with h | h | h | h | h | h <;> subst h <;> rfl
  have hcont : ([">", "<", ">=", "<=", "==", "!="] : List String).contains op = true := by
    rcases hmem with h | h | h | h | h | h <;> subst h <;> rfl
  unfold eval_condition
  rw [hop]
  dsimp only
  rw [exceptBind_ok]
  rw [show ilocRow rows idx = .ok cur from by unfold ilocRow; rw [hcur]]
  rw [exceptBind_ok]
  cases idx with
  | zero =>
    rw [if_neg (by omega)]
    rw [exceptBind_ok]
    simp only [hca, Bool.false_eq_true, if_false, hcb, hcont, if_true]
  | succ n =>
    have hlt : n + 1 < rows.length := by
      rcases List.getElem?_eq_some_iff.mp hcur with ⟨hl, _⟩
      exact hl
    rw [if_pos (by omega : n + 1 > 0)]
    rw [show ilocRow rows (n + 1 - 1) = .ok rows[n] from by
      unfold ilocRow
      rw [Nat.add_sub_cancel, List.getElem?_eq_getElem (by omega)]]
    rw [exceptBind_ok]
    simp only [hca, Bool.false_eq_true, if_false, hcb, hcont, if_true]

theorem eval_condition_missing_left (rows : List Row) (idx : ℕ) (c : Cond)
    (op colName : String) (cur : Row) (hop : c.op = some op)
    (hcur : rows[idx]? = some cur)
    (hmem : op = ">" ∨ op = "<" ∨ op = ">=" ∨ op = "<=" ∨ op = "==" ∨ op = "!=")
    (hleft : c.left = .col colName) (hmiss : cur.get? colName = none) :
    eval_condition rows idx c = .error (.keyError colName) := by
  rw [eval_condition_comparator rows idx c op cur hop hcur hmem]
  rw [show _get_value cur c.left = .error (.keyError colName) from by
    rw [hleft]
    unfold _get_value Row.getE
    dsimp only
    rw [hmiss]]
  rw [exceptBind_error]

/-! Column lemmas for the caller-visible frame mutation. -/

theorem addRegime_cols_regime (df : DF) : "regime" ∈ (addRegimeColumns df).cols := by
  unfold addRegimeColumns DF.setColScalar DF.setColWith
  by_cases h1 : "adx" ∈ df.cols
  all_goals by_cases h2 : "regime" ∈ df.cols
  all_goals simp [h1, h2]

theorem addRegime_cols_adx (df : DF) (h : "adx" ∉ df.cols) :
    "adx" ∈ (addRegimeColumns df).cols := by
  unfold addRegimeColumns DF.setColScalar DF.setColWith
  by_cases h2 : "regime" ∈ df.cols
  all_goals simp [h, h2]

/-! Monte Carlo stream-prefix determinism. -/

theorem mcRunPath_congr (returns : List ℚ) (r1 r2 : Rng) (k : ℕ)
    (hidx : ∀ j < returns.length,
      r1.sampleIdx (k * returns.length + j) = r2.sampleIdx (k * returns.length + j))
    (hnoise : ∀ j < returns.length,
      r1.noise (k * returns.length + j) = r2.noise (k * returns.length + j)) :
    mcRunPath returns r1 k = mcRunPath returns r2 k := by
  unfold mcRunPath
  dsimp only
  have hdraws : (List.range returns.length).map (fun j =>
      (returns.getD (r1.sampleIdx (k * returns.length + j) % returns.length) 0,
       r1.noise (k * returns.length + j))) =
    (List.range returns.length).map (fun j =>
      (returns.getD (r2.sampleIdx (k * returns.length + j) % returns.length) 0,
       r2.noise (k * returns.length + j))) := by
    apply List.map_congr_left
    intro j hj
    have hj2 : j < returns.length := List.mem_range.mp hj
    rw [hidx j hj2, hnoise j hj2]
  rw [hdraws]

/-! Claim theorems. -/

/-- C1 counterexample: in the 3-bar scenario (long entry true only on bar 2,
no exit ever firing), the adapter ends its loop with an empty ledger and a
still-open position, and nothing is ever recorded with reason "forced" —
against the claimed single force-closed trade. -/
theorem c1_counterexample :
    (loopV2 {} cfgScenario (addRegimeColumns dfScenario)).map
      (fun st => (st.trades.length, st.position.isSome,
        st.trades.any (fun tr => tr.reason == "forced"))) = .ok (0, true, false) := rfl

/-- C1 (amended): neither engine force-closes on the final bar. Every trade
run_backtest_v2 records closed through its stop or target, and every trade
run_backtest_pro records closed through its SL, TP or rule exit; no "forced"
exit reason exists anywhere, and a position still open when the bars run out
stays open and never reaches the ledger. -/
theorem c1_no_forced_close :
    (∀ (p : V2Params) (cfg : V2Cfg) (df : DF) (st : V2State),
      loopV2 p cfg df = .ok st →
      ∀ tr ∈ st.trades, tr.reason = "SL" ∨ tr.reason = "TP") ∧
    (∀ (cfg : StrategyConfig) (rows : List Row) (st : ProState),
      loopPro cfg rows = .ok st →
      ∀ tr ∈ st.trades, tr.reason = some "SL hit" ∨ tr.reason = some "TP hit" ∨
        tr.reason = some "Exit rule") :=
  ⟨fun p cfg df st h => loopV2_reasons p cfg df st h,
   fun cfg rows st h => (loopPro_inv cfg rows st h).2⟩

/-- Witness for C1 at the concrete scenario run and an empty pro run. -/
theorem c1_no_forced_close_witness :
    (loopV2 {} cfgScenario (addRegimeColumns dfScenario)).map
      (fun st => st.trades.all (fun tr => tr.reason == "SL" || tr.reason == "TP"))
      = .ok true ∧
    (loopPro cfgPro []).map
      (fun st => st.trades.all (fun tr => tr.reason == some "SL hit")) = .ok true := by
  constructor
  · cases hl : loopV2 {} cfgScenario (addRegimeColumns dfScenario) with
    | error e =>
      have hok : isOkE (loopV2 {} cfgScenario (addRegimeColumns dfScenario)) = true := rfl
      rw [hl] at hok
      exact absurd hok (by simp [isOkE])
    | ok st =>
      have hr := c1_no_forced_close.1 {} cfgScenario (addRegimeColumns dfScenario) st hl
      simp only [Except.map, List.all_eq_true]
      congr 1
      rw [List.all_eq_true]
      intro tr htr
      rcases hr tr htr with h | h <;> simp [h]
  · cases hl : loopPro cfgPro [] with
    | error e =>
      have hok : isOkE (loopPro cfgPro []) = true := rfl
      rw [hl] at hok
      exact absurd hok (by simp [isOkE])
    | ok st =>
      have hr := c1_no_forced_close.2 cfgPro [] st hl
      have htr : st.trades = [] := by
        have h2 : (loopPro cfgPro []).map ProState.trades = .ok [] := rfl
        rw [hl] at h2
        exact Except.ok.inj h2
      simp [Except.map, htr]

/-- C2 counterexample: a zero atr14 cell makes the stop coincide with the
entry close, and the adapter then sizes the position at the literal 1.0 —
not at riskAmount / entryPrice, which here is 10000·(1/100)/50 = 2. -/
theorem c2_counterexample :
    (loopV2 {} cfgScenario (addRegimeColumns dfZeroAtr)).map
      (fun st => st.position.map V2Pos.size) = .ok (some (some 1)) ∧
    (10000 : ℚ) * (1 / 100) / 50 ≠ (1 : ℚ) := by
  exact ⟨rfl, by norm_num⟩

/-- C2 (amended): the adapter sizes at riskAmount / stopDistance for a
positive stop distance and at the literal 1.0 otherwise — in both cases a
positive size when capital and risk are positive; the pro engine sizes at
riskAmount / (2·ATR) when a positive ATR value is available and at
riskAmount / entryPrice otherwise. -/
theorem c2_sizing :
    (∀ (cfg : V2Cfg) (st : V2State) (ts : ℚ) (close slv tpv : PFloat)
       (d : String) (regime : PyVal),
       (v2NewPos cfg st ts close d slv tpv regime).size =
         (if fGt (fAbs (fSub close slv)) (some 0)
          then fDiv (fMul st.capital (some (cfg.riskPct / 100))) (fAbs (fSub close slv))
          else some 1)) ∧
    (∀ (cfg : V2Cfg) (st : V2State) (ts : ℚ) (cl s : ℚ) (tpv : PFloat)
       (d : String) (regime : PyVal) (c : ℚ),
       st.capital = some c → 0 < c → 0 < cfg.riskPct →
       ∃ q, (v2NewPos cfg st ts (some cl) d (some s) tpv regime).size = some q ∧
         0 < q ∧ (s ≠ cl → q = c * (cfg.riskPct / 100) / |cl - s|) ∧ (s = cl → q = 1)) ∧
    (∀ ra e a : ℚ, 0 < a →
       proLongSize (some ra) (.num e) (some (.num a)) = .ok (some (ra / (2 * a)))) ∧
    (∀ ra e a : ℚ, 0 < a →
       proShortSize (some ra) (.num e) (some (.num a)) = .ok (some (ra / (2 * a)))) ∧
    (∀ ra e : ℚ, e ≠ 0 → proLongSize (some ra) (.num e) none = .ok (some (ra / e))) ∧
    (∀ ra e : ℚ, e ≠ 0 → proShortSize (some ra) (.num e) none = .ok (some (ra / e))) ∧
    (∀ ra d : ℚ, 0 < ra → 0 < d → 0 < ra / d) :=
  ⟨fun cfg st ts close slv tpv d regime => v2NewPos_size cfg st ts close d slv tpv regime,
   fun cfg st ts cl s tpv d regime c hc hcp hr =>
     v2NewPos_size_pos cfg st ts cl s tpv d regime c hc hcp hr,
   proLongSize_atr, proShortSize_atr, proLongSize_noatr, proShortSize_noatr,
   fun ra d hra hd => div_pos hra hd⟩

/-- Witness for C2 at concrete sizing inputs. -/
theorem c2_sizing_witness :
    proLongSize (some 100) (.num 50) (some (.num 1)) = .ok (some 50) ∧
    proShortSize (some 100) (.num 50) none = .ok (some 2) := by
  constructor
  · have h := c2_sizing.2.2.1 100 50 1 (by norm_num)
    rw [h]
    norm_num
  · have h := c2_sizing.2.2.2.2.2.1 100 50 (by norm_num)
    rw [h]
    norm_num

/-- C3: in both engines, at every point of a run the working capital equals
the starting capital plus the summed pnl of the trades recorded so far —
capital moves exactly when a trade is appended, and by its pnl. -/
theorem c3_capital_conservation :
    (∀ (p : V2Params) (cfg : V2Cfg) (df : DF) (st : V2State),
      loopV2 p cfg df = .ok st →
      st.capital = fAdd (some cfg.capital) (pfSum (st.trades.map V2Trade.pnl))) ∧
    (∀ (cfg : StrategyConfig) (rows : List Row) (st : ProState),
      loopPro cfg rows = .ok st →
      st.capital = fAdd (some cfg.risk.capital) (pfSum (st.trades.map ProTrade.pnl))) :=
  ⟨loopV2_capital, fun cfg rows st h => (loopPro_inv cfg rows st h).1⟩

/-- Witness for C3 at the concrete scenario run. -/
theorem c3_capital_conservation_witness :
    (loopV2 {} cfgScenario (addRegimeColumns dfScenario)).map V2State.capital =
      .ok (some 10000) := by
  cases hl : loopV2 {} cfgScenario (addRegimeColumns dfScenario) with
  | error e =>
    have hok : isOkE (loopV2 {} cfgScenario (addRegimeColumns dfScenario)) = true := rfl
    rw [hl] at hok
    exact absurd hok (by simp [isOkE])
  | ok st =>
    have h := c3_capital_conservation.1 {} cfgScenario (addRegimeColumns dfScenario) st hl
    have htr : st.trades = [] := by
      have h2 : (loopV2 {} cfgScenario (addRegimeColumns dfScenario)).map V2State.trades =
          .ok [] := rfl
      rw [hl] at h2
      exact Except.ok.inj h2
    simp [Except.map, h, htr, pfSum, fAdd, cfgScenario]

/-- The fixed-variant profit factor is inf whenever the ledger is non-empty
and carries no losing trade, winning trades or not. -/
theorem profitFactorFixed_no_losses (pnls : List PFloat) (hne : pnls ≠ [])
    (hnl : ∀ p ∈ pnls, fLt p (some 0) = false) : profitFactorFixed pnls = PF.inf := by
  have hEmptyB : pnls.isEmpty = false := by
    cases pnls with
    | nil => exact absurd rfl hne
    | cons a t => rfl
  unfold profitFactorFixed
  rw [hEmptyB]
  simp only [Bool.false_eq_true, if_false]
  have hfilter : pnls.filter (fun p => fLt p (some 0)) = [] := by
    rw [List.filter_eq_nil_iff]
    intro p hp
    simp [hnl p hp]
  rw [hfilter]
  simp [pdSum]

/-- C4 (amended): in the rule engine, a NaN operand makes the five comparators
>, <, >=, <=, == evaluate false without raising, but != evaluates TRUE on a
NaN operand; in the adapter's _check_conditions, a NaN operand never trips the
veto of >, <, >= or <= (the condition silently passes), while the == veto
fires (the condition evaluates false). -/
theorem c4_nan_comparisons :
    (∀ (rows : List Row) (idx : ℕ) (c : Cond) (op : String) (cur : Row)
       (lv rv : PyVal),
      c.op = some op → rows[idx]? = some cur →
      (op = ">" ∨ op = "<" ∨ op = ">=" ∨ op = "<=" ∨ op = "==") →
      _get_value cur c.left = .ok lv → _get_value cur c.right = .ok rv →
      isFloat lv = true → isFloat rv = true → (lv = .nan ∨ rv = .nan) →
      eval_condition rows idx c = .ok false) ∧
    (∀ (rows : List Row) (idx : ℕ) (c : Cond) (cur : Row) (lv rv : PyVal),
      c.op = some "!=" → rows[idx]? = some cur →
      _get_value cur c.left = .ok lv → _get_value cur c.right = .ok rv →
      isFloat lv = true → isFloat rv = true → (lv = .nan ∨ rv = .nan) →
      eval_condition rows idx c = .ok true) ∧
    (∀ (row : Row) (c : Cond) (lv rv : PyVal),
      adapterOperand row c.left = lv → adapterOperand row c.right = rv →
      isFloat lv = true → isFloat rv = true → (lv = .nan ∨ rv = .nan) →
      ((c.op.getD "==" = ">" ∨ c.op.getD "==" = "<" ∨
        c.op.getD "==" = ">=" ∨ c.op.getD "==" = "<=") →
        condRejects row c = .ok false) ∧
      (c.op.getD "==" = "==" → condRejects row c = .ok true)) := by
  refine ⟨?_, ?_, ?_⟩
  · intro rows idx c op cur lv rv hop hcur hmem hgl hgr hfl hfr hnan
    rw [eval_condition_comparator rows idx c op cur hop hcur (by tauto)]
    rw [hgl, exceptBind_ok, hgr, exceptBind_ok]
    rcases hmem with h | h | h | h | h <;> subst h
    · exact (pyCmpB_nan_false lv rv hfl hfr hnan).1
    · exact (pyCmpB_nan_false lv rv hfl hfr hnan).2.1
    · exact (pyCmpB_nan_false lv rv hfl hfr hnan).2.2.1
    · exact (pyCmpB_nan_false lv rv hfl hfr hnan).2.2.2.1
    · rw [(pyCmpB_nan_false lv rv hfl hfr hnan).2.2.2.2.1]
      rfl
  · intro rows idx c cur lv rv hop hcur hgl hgr hfl hfr hnan
    rw [eval_condition_comparator rows idx c "!=" cur hop hcur (by tauto)]
    rw [hgl, exceptBind_ok, hgr, exceptBind_ok]
    rw [(pyCmpB_nan_false lv rv hfl hfr hnan).2.2.2.2.2]
    rfl
  · intro row c lv rv hal har hfl hfr hnan
    constructor
    · intro hop4
      unfold condRejects
      dsimp only
      rw [hal, har]
      rcases hop4 with h | h | h | h <;> rw [h]
      · exact (pyCmpB_nan_false lv rv hfl hfr hnan).2.2.2.1
      · exact (pyCmpB_nan_false lv rv hfl hfr hnan).2.2.1
      · exact (pyCmpB_nan_false lv rv hfl hfr hnan).2.1
      · exact (pyCmpB_nan_false lv rv hfl hfr hnan).1
    · intro hop
      unfold condRejects
      dsimp only
      rw [hal, har, hop]
      rw [(pyCmpB_nan_false lv rv hfl hfr hnan).2.2.2.2.2]
      rfl

/-- C4 counterexample: a NaN left operand makes != evaluate true in the rule
engine, and makes a > condition pass the adapter's _check_conditions — both
against "any NaN operand makes the condition false". -/
theorem c4_counterexample :
    eval_condition [rowNan] 0 ⟨.col "x", some "!=", .lit 5⟩ = .ok true ∧
    _check_conditions rowNan [⟨.col "x", some ">", .lit 5⟩] = .ok true :=
  ⟨rfl, rfl⟩

/-- Witness for C4: the amended statement applied at the NaN row fixture. -/
theorem c4_nan_comparisons_witness :
    eval_condition [rowNan] 0 ⟨.col "x", some ">", .lit 5⟩ = .ok false ∧
    condRejects rowNan ⟨.col "x", some "==", .lit 5⟩ = .ok true := by
  constructor
  · exact c4_nan_comparisons.1 [rowNan] 0 ⟨.col "x", some ">", .lit 5⟩ ">" rowNan
      .nan (.num 5) rfl rfl (Or.inl rfl) rfl rfl rfl rfl (Or.inl rfl)
  · exact (c4_nan_comparisons.2.2 rowNan ⟨.col "x", some "==", .lit 5⟩
      .nan (.num 5) rfl rfl rfl rfl (Or.inl rfl)).2 rfl

/-- The previous-bar row eval_condition binds: it resolves to a row of the
frame (the current row again at index 0). -/
theorem ilocPrev_ok (rows : List Row) (idx : ℕ) (cur : Row)
    (hcur : rows[idx]? = some cur) :
    ∃ prev, ((idx = 0 ∧ prev = cur) ∨ (0 < idx ∧ rows[idx - 1]? = some prev)) ∧
      prev ∈ rows := by
  cases idx with
  | zero =>
    exact ⟨cur, Or.inl ⟨rfl, rfl⟩, List.getElem?_mem hcur⟩
  | succ n =>
    have hlt : n + 1 < rows.length := (List.getElem?_eq_some_iff.mp hcur).1
    refine ⟨rows[n], Or.inr ⟨by omega, ?_⟩, List.getElem_mem (by omega)⟩
    rw [Nat.add_sub_cancel, List.getElem?_eq_getElem (by omega)]

/-- eval_condition on a crosses_above condition, the row binds resolved. -/
theorem eval_condition_crossabove_eq (rows : List Row) (idx : ℕ) (c : Cond)
    (cur prev : Row) (hop : c.op = some "crosses_above")
    (hcur : rows[idx]? = some cur)
    (hprev : (idx = 0 ∧ prev = cur) ∨ (0 < idx ∧ rows[idx - 1]? = some prev)) :
    eval_condition rows idx c = (do
      let pl ← _get_value prev c.left
      let pr ← _get_value prev c.right
      let b ← pyLeB pl pr
      if b then do
        let cl ← _get_value cur c.left
        let cr ← _get_value cur c.right
        pyGtB cl cr
      else pure false) := by
  unfold eval_condition
  rw [hop]
  dsimp only
  rw [exceptBind_ok]
  rw [show ilocRow rows idx = .ok cur from by unfold ilocRow; rw [hcur]]
  rw [exceptBind_ok]
  rcases hprev with ⟨h0, hpc⟩ | ⟨hpos, hp⟩
  · subst h0
    rw [if_neg (by omega)]
    subst hpc
    rfl
  · rw [if_pos hpos]
    rw [show ilocRow rows (idx - 1) = .ok prev from by unfold ilocRow; rw [hp]]
    rw [exceptBind_ok]
    rfl

/-- eval_condition on a crosses_below condition, the row binds resolved. -/
theorem eval_condition_crossbelow_eq (rows : List Row) (idx : ℕ) (c : Cond)
    (cur prev : Row) (hop : c.op = some "crosses_below")
    (hcur : rows[idx]? = some cur)
    (hprev : (idx = 0 ∧ prev = cur) ∨ (0 < idx ∧ rows[idx - 1]? = some prev)) :
    eval_condition rows idx c = (do
      let pl ← _get_value prev c.left
      let pr ← _get_value prev c.right
      let b ← pyGeB pl pr
      if b then do
        let cl ← _get_value cur c.left
        let cr ← _get_value cur c.right
        pyLtB cl cr
      else pure false) := by
  unfold eval_condition
  rw [hop]
  dsimp only
  rw [exceptBind_ok]
  rw [show ilocRow rows idx = .ok cur from by unfold ilocRow; rw [hcur]]
  rw [exceptBind_ok]
  rcases hprev with ⟨h0, hpc⟩ | ⟨hpos, hp⟩
  · subst h0
    rw [if_neg (by omega)]
    subst hpc
    rfl
  · rw [if_pos hpos]
    rw [show ilocRow rows (idx - 1) = .ok prev from by unfold ilocRow; rw [hp]]
    rw [exceptBind_ok]
    rfl

/-- Resolving an operand over a row that lacks the named column. -/
theorem _get_value_missing (r : Row) (colName : String)
    (hmiss : r.get? colName = none) :
    _get_value r (.col colName) = .error (.keyError colName) := by
  unfold _get_value Row.getE
  dsimp only
  rw [hmiss]

/-- C5 (amended): a condition whose left or right operand names a column
absent from the bar series raises KeyError(column) in the rule engine — a
generic Python error naming the column, there being no ConfigError type in
the source — under every operator, the six comparators and the two
crossovers alike (for a right-operand miss, once the left operand itself
resolves); the adapter's _check_conditions instead silently substitutes 0
for the missing column and evaluates the condition on that default. -/
theorem c5_missing_column :
    (∀ (rows : List Row) (idx : ℕ) (c : Cond) (op colName : String) (cur : Row),
      c.op = some op → rows[idx]? = some cur →
      (op = ">" ∨ op = "<" ∨ op = ">=" ∨ op = "<=" ∨ op = "==" ∨ op = "!=" ∨
       op = "crosses_above" ∨ op = "crosses_below") →
      c.left = .col colName → (∀ r ∈ rows, r.get? colName = none) →
      eval_condition rows idx c = .error (.keyError colName)) ∧
    (∀ (rows : List Row) (idx : ℕ) (c : Cond) (op colName : String) (cur : Row),
      c.op = some op → rows[idx]? = some cur →
      (op = ">" ∨ op = "<" ∨ op = ">=" ∨ op = "<=" ∨ op = "==" ∨ op = "!=" ∨
       op = "crosses_above" ∨ op = "crosses_below") →
      c.right = .col colName → (∀ r ∈ rows, r.get? colName = none) →
      (∀ r ∈ rows, ∃ lv, _get_value r c.left = Except.ok lv) →
      eval_condition rows idx c = .error (.keyError colName)) ∧
    (∀ (row : Row) (colName : String), row.get? colName = none →
      adapterOperand row (.col colName) = .num 0) := by
  refine ⟨?_, ?_, ?_⟩
  · intro rows idx c op colName cur hop hcur hmem hleft hmiss
    have hcm : cur ∈ rows := List.getElem?_mem hcur
    obtain ⟨prev, hprev, hpm⟩ := ilocPrev_ok rows idx cur hcur
    have hgl : _get_value cur c.left = .error (.keyError colName) := by
      rw [hleft]
      exact _get_value_missing cur colName (hmiss cur hcm)
    have hgpl : _get_value prev c.left = .error (.keyError colName) := by
      rw [hleft]
      exact _get_value_missing prev colName (hmiss prev hpm)
    rcases hmem with h | h | h | h | h | h | h | h
    · subst h
      rw [eval_condition_comparator rows idx c ">" cur hop hcur (by tauto)]
      rw [hgl, exceptBind_error]
    · subst h
      rw [eval_condition_comparator rows idx c "<" cur hop hcur (by tauto)]
      rw [hgl, exceptBind_error]
    · subst h
      rw [eval_condition_comparator rows idx c ">=" cur hop hcur (by tauto)]
      rw [hgl, exceptBind_error]
    · subst h
      rw [eval_condition_comparator rows idx c "<=" cur hop hcur (by tauto)]
      rw [hgl, exceptBind_error]
    · subst h
      rw [eval_condition_comparator rows idx c "==" cur hop hcur (by tauto)]
      rw [hgl, exceptBind_error]
    · subst h
      rw [eval_condition_comparator rows idx c "!=" cur hop hcur (by tauto)]
      rw [hgl, exceptBind_error]
    · subst h
      rw [eval_condition_crossabove_eq rows idx c cur prev hop hcur hprev]
      rw [hgpl, exceptBind_error]
    · subst h
      rw [eval_condition_crossbelow_eq rows idx c cur prev hop hcur hprev]
      rw [hgpl, exceptBind_error]
  · intro rows idx c op colName cur hop hcur hmem hright hmiss hleftok
    have hcm : cur ∈ rows := List.getElem?_mem hcur
    obtain ⟨prev, hprev, hpm⟩ := ilocPrev_ok rows idx cur hcur
    obtain ⟨lv, hgl⟩ := hleftok cur hcm
    obtain ⟨plv, hgpl⟩ := hleftok prev hpm
    have hgr : _get_value cur c.right = .error (.keyError colName) := by
      rw [hright]
      exact _get_value_missing cur colName (hmiss cur hcm)
    have hgpr : _get_value prev c.right = .error (.keyError colName) := by
      rw [hright]
      exact _get_value_missing prev colName (hmiss prev hpm)
    rcases hmem with h | h | h | h | h | h | h | h
    · subst h
      rw [eval_condition_comparator rows idx c ">" cur hop hcur (by tauto)]
      rw [hgl, exceptBind_ok, hgr, exceptBind_error]
    · subst h
      rw [eval_condition_comparator rows idx c "<" cur hop hcur (by tauto)]
      rw [hgl, exceptBind_ok, hgr, exceptBind_error]
    · subst h
      rw [eval_condition_comparator rows idx c ">=" cur hop hcur (by tauto)]
      rw [hgl, exceptBind_ok, hgr, exceptBind_error]
    · subst h
      rw [eval_condition_comparator rows idx c "<=" cur hop hcur (by tauto)]
      rw [hgl, exceptBind_ok, hgr, exceptBind_error]
    · subst h
      rw [eval_condition_comparator rows idx c "==" cur hop hcur (by tauto)]
      rw [hgl, exceptBind_ok, hgr, exceptBind_error]
    · subst h
      rw [eval_condition_comparator rows idx c "!=" cur hop hcur (by tauto)]
      rw [hgl, exceptBind_ok, hgr, exceptBind_error]
    · subst h
      rw [eval_condition_crossabove_eq rows idx c cur prev hop hcur hprev]
      rw [hgpl, exceptBind_ok, hgpr, exceptBind_error]
    · subst h
      rw [eval_condition_crossbelow_eq rows idx c cur prev hop hcur hprev]
      rw [hgpl, exceptBind_ok, hgpr, exceptBind_error]
  · intro row colName h
    simp [adapterOperand, Row.getD, h]

/-- C5 counterexample: the column ema50 is absent from the plain row; the
adapter substitutes 0 for it and lets the condition ema50 < 1 pass, and the
rule engine raises KeyError, not a ConfigError (no such type exists in the
source). -/
theorem c5_counterexample :
    adapterOperand rowPlain (.col "ema50") = .num 0 ∧
    _check_conditions rowPlain [⟨.col "ema50", some "<", .lit 1⟩] = .ok true ∧
    eval_condition [rowPlain] 0 ⟨.col "ema50", some "<", .lit 1⟩ =
      .error (.keyError "ema50") :=
  ⟨rfl, rfl, rfl⟩

/-- Witness for C5: the amended statement applied at the plain row fixture,
once with the missing column on the left of a comparator and once on the
right of a crossover. -/
theorem c5_missing_column_witness :
    eval_condition [rowPlain] 0 ⟨.col "ema50", some ">", .lit 1⟩ =
      .error (.keyError "ema50") ∧
    eval_condition [rowPlain] 0 ⟨.lit 1, some "crosses_above", .col "ema50"⟩ =
      .error (.keyError "ema50") ∧
    adapterOperand rowPlain (.col "ema50") = .num 0 :=
  ⟨c5_missing_column.1 [rowPlain] 0 ⟨.col "ema50", some ">", .lit 1⟩ ">" "ema50"
     rowPlain rfl rfl (Or.inl rfl) rfl
     (fun r hr => by rw [List.eq_of_mem_singleton hr]; rfl),
   c5_missing_column.2.1 [rowPlain] 0 ⟨.lit 1, some "crosses_above", .col "ema50"⟩
     "crosses_above" "ema50" rowPlain rfl rfl
     (Or.inr (Or.inr (Or.inr (Or.inr (Or.inr (Or.inr (Or.inl rfl)))))))
     rfl
     (fun r hr => by rw [List.eq_of_mem_singleton hr]; rfl)
     (fun r hr => ⟨.num 1, rfl⟩),
   c5_missing_column.2.2 rowPlain "ema50" rfl⟩

/-- C6: run_backtest_v2 never aligns an equity curve with the bar index — the
loop pushes one equity value per bar on top of the seeded starting capital, so
the pd.Series(equity, df.index[:len(equity)]) call receives len(df)+1 values
against at most len(df) index entries and raises ValueError on every input
frame whose index matches its rows. -/
theorem c6_equity_series_always_raises (df : DF) (p : V2Params) (cfg : V2Cfg)
    (st : V2State) (hlen : df.idx.length = df.rows.length)
    (h : loopV2 p cfg (addRegimeColumns df) = .ok st) :
    (runBacktestV2Core df p cfg).2 =
      .error (.valueError "Length of values does not match length of index") :=
  runBacktestV2Core_series_error df p cfg st hlen h

/-- Witness for C6 at the three-bar scenario frame. -/
theorem c6_equity_series_always_raises_witness :
    (runBacktestV2Core dfScenario {} cfgScenario).2 =
      .error (.valueError "Length of values does not match length of index") := by
  cases hl : loopV2 {} cfgScenario (addRegimeColumns dfScenario) with
  | error e =>
    have hok : isOkE (loopV2 {} cfgScenario (addRegimeColumns dfScenario)) = true := rfl
    rw [hl] at hok
    exact absurd hok (by simp [isOkE])
  | ok st => exact c6_equity_series_always_raises dfScenario {} cfgScenario st rfl hl

/-- C7: the profit factor of core/metrics.py matches the claimed
characterization exactly (quotient of gross win over gross loss, inf iff a win
and no losses, 0 iff no trades or no wins), but the fixed-variant
_compute_metrics returns inf — not 0 — for a non-empty ledger with no wins
and no losses. -/
theorem c7_profit_factor :
    (∀ pnls : List PFloat,
      (profit_factor pnls = PF.inf ↔
        ((∃ p ∈ pnls, fGt p (some 0) = true) ∧ ∀ p ∈ pnls, fLt p (some 0) = false)) ∧
      (profit_factor pnls = PF.fin 0 ↔
        (pnls = [] ∨ ∀ p ∈ pnls, fGt p (some 0) = false)) ∧
      (∀ w l : ℚ,
        pdSum (pnls.filter (fun p => fGt p (some 0))) = w →
        pdSum ((pnls.filter (fun p => fLt p (some 0))).map fAbs) = l →
        l ≠ 0 → pnls ≠ [] → profit_factor pnls = PF.fin (w / l))) ∧
    (∀ pnls : List PFloat, pnls ≠ [] → (∀ p ∈ pnls, fLt p (some 0) = false) →
      profitFactorFixed pnls = PF.inf) :=
  ⟨profit_factor_spec, profitFactorFixed_no_losses⟩

/-- C7 counterexample: one break-even trade (pnl 0) has no win and no loss;
metrics.py reports profit factor 0, the fixed variant reports inf — the
latter contradicts "0 iff 0 trades or 0 wins". -/
theorem c7_counterexample :
    profitFactorFixed [some 0] = PF.inf ∧ profit_factor [some 0] = PF.fin 0 :=
  ⟨rfl, rfl⟩

/-- Witness for C7: the quotient clause applied at a two-trade ledger. -/
theorem c7_profit_factor_witness :
    profit_factor [some 2, some (-1)] = PF.fin 2 := by
  have h := (c7_profit_factor.1 [some 2, some (-1)]).2.2 2 1
    (by norm_num [pdSum, fGt, List.filter, List.filterMap_cons, List.filterMap_nil])
    (by norm_num [pdSum, fAbs, fLt, List.filter, List.filterMap_cons,
      List.filterMap_nil])
    (by norm_num) (by simp)
  rw [h]
  norm_num

/-- C8 (amended): run_backtest_v2 writes the adx and regime columns into the
caller's frame in place (the returned frame is the caller's, now carrying a
regime column, and an adx column when it had none), while run_backtest_pro
works on df.copy() and leaves its caller's frame untouched. -/
theorem c8_frame_mutation :
    (∀ (df : DF) (p : V2Params) (cfg : V2Cfg),
      "regime" ∈ ((runBacktestV2Core df p cfg).1).cols) ∧
    (∀ (df : DF) (p : V2Params) (cfg : V2Cfg), "adx" ∉ df.cols →
      "adx" ∈ ((runBacktestV2Core df p cfg).1).cols) ∧
    (∀ (df : DF) (p : V2Params) (cfg : V2Cfg),
      (runBacktestV2Core df p cfg).1 = addRegimeColumns df) := by
  refine ⟨?_, ?_, ?_⟩
  · intro df p cfg
    exact addRegime_cols_regime df
  · intro df p cfg h
    exact addRegime_cols_adx df h
  · intro df p cfg
    rfl

/-- C8 counterexample: the two-bar frame without an adx column comes back
from the adapter with adx and regime columns appended — its column list has
visibly changed. -/
theorem c8_counterexample :
    ((runBacktestV2Core dfNoAdx {} cfgScenario).1).cols =
      ["close", "high", "low", "ema20", "adx", "regime"] ∧
    dfNoAdx.cols = ["close", "high", "low", "ema20"] :=
  ⟨rfl, rfl⟩

/-- Witness for C8 at the adx-free two-bar frame. -/
theorem c8_frame_mutation_witness :
    "regime" ∈ ((runBacktestV2Core dfNoAdx {} cfgScenario).1).cols ∧
    "adx" ∈ ((runBacktestV2Core dfNoAdx {} cfgScenario).1).cols :=
  ⟨c8_frame_mutation.1 dfNoAdx {} cfgScenario,
   c8_frame_mutation.2.1 dfNoAdx {} cfgScenario (by decide)⟩

/-- C9 (amended): run_backtest_v2 takes no seed parameter; its Monte Carlo
block reads the ambient NumPy random streams, and the report is a function of
the consumed stream prefix alone — two runs agreeing on the first
runs·len(returns) index and noise draws produce identical reports. -/
theorem c9_mc_determinism (returns : List ℚ) (runs : ℕ) (r1 r2 : Rng)
    (hidx : ∀ m, m < runs * returns.length → r1.sampleIdx m = r2.sampleIdx m)
    (hnoise : ∀ m, m < runs * returns.length → r1.noise m = r2.noise m) :
    monteCarloV2 returns runs r1 = monteCarloV2 returns runs r2 := by
  unfold monteCarloV2
  have hmc : (List.range runs).map (mcRunPath returns r1) =
      (List.range runs).map (mcRunPath returns r2) := by
    apply List.map_congr_left
    intro k hk
    have hk2 : k < runs := List.mem_range.mp hk
    have hbound : ∀ j, j < returns.length →
        k * returns.length + j < runs * returns.length := by
      intro j hj
      have h1 : k * returns.length + j < (k + 1) * returns.length := by
        rw [Nat.succ_mul]
        omega
      have h2 : (k + 1) * returns.length ≤ runs * returns.length :=
        Nat.mul_le_mul_right _ hk2
      omega
    exact mcRunPath_congr returns r1 r2 k
      (fun j hj => hidx _ (hbound j hj)) (fun j hj => hnoise _ (hbound j hj))
  rw [hmc]

/-- C9 counterexample: with no seed in the interface the report depends on
the ambient stream — the same single-trade ledger and run count yield mean
cumulative return 0 under the zero-noise stream and 100 under the unit-noise
stream. -/
theorem c9_counterexample :
    (monteCarloV2 [0] 1 rngZero).mean_return = 0 ∧
    (monteCarloV2 [0] 1 rngOne).mean_return = 100 := by
  exact ⟨rfl, rfl⟩

/-- Witness for C9: streams agreeing on the single consumed position give
equal reports. -/
theorem c9_mc_determinism_witness :
    monteCarloV2 [0] 1 rngZero = monteCarloV2 [0] 1 rngTail :=
  c9_mc_determinism [0] 1 rngZero rngTail
    (fun m _ => rfl)
    (fun m hm => by
      have hm0 : m = 0 := by simpa using hm
      subst hm0
      rfl)

/-- C10 (amended): over a frame lacking an adx column the adapter labels
every bar's regime "chop" and the trend-only entry gate then blocks every
entry: the bar loop ends with no trade, no open position and only "chop"
regime labels — though the run as a whole still reports nothing, raising
ValueError on the equity series. -/
theorem c10_regime_gate (p : V2Params) (cfg : V2Cfg) (df : DF)
    (hno : df.cols.contains "adx" = false) (st : V2State)
    (h : loopV2 p cfg (addRegimeColumns df) = .ok st) :
    st.trades = [] ∧ st.position = none ∧ ∀ x ∈ st.regimes, x = PyVal.str "chop" :=
  loopV2_chop p cfg (addRegimeColumns df) (addRegime_regime_chop df hno) st h

/-- C10 counterexample: on the adx-free frame the loop indeed books no trade,
but run_backtest_v2 then raises building the equity series, so no zero-trade
report is ever returned. -/
theorem c10_counterexample :
    (runBacktestV2Core dfNoAdx {} cfgScenario).2 =
      .error (.valueError "Length of values does not match length of index") ∧
    (loopV2 {} cfgScenario (addRegimeColumns dfNoAdx)).map
      (fun st => st.trades.length) = .ok 0 :=
  ⟨rfl, rfl⟩

/-- Witness for C10 at the adx-free two-bar frame. -/
theorem c10_regime_gate_witness :
    (loopV2 {} cfgScenario (addRegimeColumns dfNoAdx)).map
      (fun st => (st.trades.length, st.position.isSome)) = .ok (0, false) := by
  cases hl : loopV2 {} cfgScenario (addRegimeColumns dfNoAdx) with
  | error e =>
    have hok : isOkE (loopV2 {} cfgScenario (addRegimeColumns dfNoAdx)) = true := rfl
    rw [hl] at hok
    exact absurd hok (by simp [isOkE])
  | ok st =>
    obtain ⟨h1, h2, _⟩ := c10_regime_gate {} cfgScenario dfNoAdx rfl st hl
    simp [Except.map, h1, h2]
